import Mathlib

/-!
Verification development for the embedding indexing/search engine of the
obsidian-link-grabber plugin.  The definitions below are shallow embeddings of
the TypeScript sources under `src/AI/` (AIEmbeddingDatabase.ts,
AIWorkerService (in AIEmbeddingDatabase.ts), AIService.ts,
AIIndexingEngine.ts, AISemanticSearch.ts).  Timestamps are `Nat`
(milliseconds), JS `Record<string, T>` objects are association lists keyed by
`String`, and vector payloads are a type parameter `V` (instantiated with `ℝ`
for the similarity-search development).
-/

/-- Association-list model of a JS `Record<string, T>` object: unique keys,
insertion order preserved (`Object.entries` iterates in insertion order). -/
abbrev StrMap (α : Type) : Type := List (String × α)

def StrMap.get? {α : Type} (m : StrMap α) (k : String) : Option α :=
  (List.find? (fun e => e.1 == k) m).map (fun e => e.2)

/-- JS object assignment `obj[k] = v`: replaces in place if present, else
appends (new keys come last in insertion order). -/
def StrMap.set {α : Type} (m : StrMap α) (k : String) (v : α) : StrMap α :=
  match m with
  | [] => [(k, v)]
  | (k', v') :: rest =>
    if k' == k then (k, v) :: rest else (k', v') :: StrMap.set rest k v

/-- JS `delete obj[k]`. -/
def StrMap.remove {α : Type} (m : StrMap α) (k : String) : StrMap α :=
  List.filter (fun e => !(e.1 == k)) m

def StrMap.keys {α : Type} (m : StrMap α) : List String :=
  m.map (fun e => e.1)

/-- `src/AI/AIEmbeddingDatabase.ts` interface `TitleEmbedding`. -/
structure TitleEmbedding (V : Type) where
  path : String
  embedding : List V
  lastModified : Nat
  title : String
deriving Repr, DecidableEq

/-- `src/AI/AIEmbeddingDatabase.ts` interface `HeadingEmbedding`. -/
structure HeadingEmbedding (V : Type) where
  path : String
  embedding : List V
  lastModified : Nat
  headings : List String
deriving Repr, DecidableEq

/-- `src/AI/AIEmbeddingDatabase.ts` interface `ContentEmbedding`. -/
structure ContentEmbedding (V : Type) where
  path : String
  embedding : List V
  lastModified : Nat
  excerpt : String
deriving Repr, DecidableEq

/-- `src/AI/AIEmbeddingDatabase.ts` interface `IndexingState`. -/
structure IndexingState where
  isIndexing : Bool
  progress : Nat
  total : Nat
  lastIndexed : Nat
  lastHeartbeat : Nat
deriving Repr, DecidableEq

structure IndexingStates where
  titles : IndexingState
  headings : IndexingState
  content : IndexingState
deriving Repr, DecidableEq

/-- `src/AI/AIEmbeddingDatabase.ts` interface `EmbeddingDatabases`. -/
structure EmbeddingDatabases (V : Type) where
  version : String
  lastUpdate : Nat
  titles : StrMap (TitleEmbedding V)
  headings : StrMap (HeadingEmbedding V)
  content : StrMap (ContentEmbedding V)
  indexingStates : IndexingStates

inductive IndexType where
  | titles
  | headings
  | content
deriving Repr, DecidableEq

/-- `AIEmbeddingDatabase.createEmptyState`. -/
def createEmptyState : IndexingState :=
  { isIndexing := false, progress := 0, total := 0, lastIndexed := 0,
    lastHeartbeat := 0 }

/-- `AIEmbeddingDatabase.createEmptyDatabase`; `Date.now()` is the `now`
parameter. -/
def createEmptyDatabase (V : Type) (now : Nat) : EmbeddingDatabases V :=
  { version := "2.0.0", lastUpdate := now, titles := [], headings := [],
    content := [],
    indexingStates :=
      { titles := createEmptyState, headings := createEmptyState,
        content := createEmptyState } }

def getIndexingState {V : Type} (db : EmbeddingDatabases V) :
    IndexType → IndexingState
  | IndexType.titles => db.indexingStates.titles
  | IndexType.headings => db.indexingStates.headings
  | IndexType.content => db.indexingStates.content

/-- A `Partial<IndexingState>`: only the listed fields are assigned. -/
structure IndexingStatePatch where
  isIndexing : Option Bool := none
  progress : Option Nat := none
  total : Option Nat := none
  lastIndexed : Option Nat := none
  lastHeartbeat : Option Nat := none

/-- `Object.assign(state, patch)`. -/
def applyPatch (s : IndexingState) (p : IndexingStatePatch) : IndexingState :=
  { isIndexing := p.isIndexing.getD s.isIndexing,
    progress := p.progress.getD s.progress,
    total := p.total.getD s.total,
    lastIndexed := p.lastIndexed.getD s.lastIndexed,
    lastHeartbeat := p.lastHeartbeat.getD s.lastHeartbeat }

/-- `AIEmbeddingDatabase.setIndexingState`. -/
def setIndexingState {V : Type} (db : EmbeddingDatabases V) (t : IndexType)
    (p : IndexingStatePatch) : EmbeddingDatabases V :=
  match t with
  | IndexType.titles =>
    { db with indexingStates :=
        { db.indexingStates with titles := applyPatch db.indexingStates.titles p } }
  | IndexType.headings =>
    { db with indexingStates :=
        { db.indexingStates with headings := applyPatch db.indexingStates.headings p } }
  | IndexType.content =>
    { db with indexingStates :=
        { db.indexingStates with content := applyPatch db.indexingStates.content p } }

def getTitleEmbedding {V : Type} (db : EmbeddingDatabases V) (path : String) :
    Option (TitleEmbedding V) :=
  StrMap.get? db.titles path

def setTitleEmbedding {V : Type} (db : EmbeddingDatabases V) (path : String)
    (e : TitleEmbedding V) : EmbeddingDatabases V :=
  { db with titles := StrMap.set db.titles path e }

def removeTitleEmbedding {V : Type} (db : EmbeddingDatabases V)
    (path : String) : EmbeddingDatabases V :=
  { db with titles := StrMap.remove db.titles path }

def getHeadingEmbedding {V : Type} (db : EmbeddingDatabases V) (path : String) :
    Option (HeadingEmbedding V) :=
  StrMap.get? db.headings path

def setHeadingEmbedding {V : Type} (db : EmbeddingDatabases V) (path : String)
    (e : HeadingEmbedding V) : EmbeddingDatabases V :=
  { db with headings := StrMap.set db.headings path e }

def removeHeadingEmbedding {V : Type} (db : EmbeddingDatabases V)
    (path : String) : EmbeddingDatabases V :=
  { db with headings := StrMap.remove db.headings path }

def getContentEmbedding {V : Type} (db : EmbeddingDatabases V) (path : String) :
    Option (ContentEmbedding V) :=
  StrMap.get? db.content path

def setContentEmbedding {V : Type} (db : EmbeddingDatabases V) (path : String)
    (e : ContentEmbedding V) : EmbeddingDatabases V :=
  { db with content := StrMap.set db.content path e }

def removeContentEmbedding {V : Type} (db : EmbeddingDatabases V)
    (path : String) : EmbeddingDatabases V :=
  { db with content := StrMap.remove db.content path }

/-- `AIEmbeddingDatabase.save`: refreshes `lastUpdate` and writes the envelope
to disk.  The written envelope is the returned value. -/
def saveDb {V : Type} (db : EmbeddingDatabases V) (now : Nat) :
    EmbeddingDatabases V :=
  { db with lastUpdate := now }

/-- A persisted `IndexingState` as parsed from JSON: `lastHeartbeat` may be
absent (`undefined`) in envelopes written by earlier builds. -/
structure RawIndexingState where
  isIndexing : Bool
  progress : Nat
  total : Nat
  lastIndexed : Nat
  lastHeartbeat : Option Nat
deriving Repr, DecidableEq

/-- `load()`'s normalization: `if lastHeartbeat === undefined then 0`. -/
def normalizeRawState (s : RawIndexingState) : IndexingState :=
  { isIndexing := s.isIndexing, progress := s.progress, total := s.total,
    lastIndexed := s.lastIndexed, lastHeartbeat := s.lastHeartbeat.getD 0 }

/-- `load()`'s stale-lock recovery for one collection state:
`isStale = lastHeartbeat > 0 && (Date.now() - lastHeartbeat > 30000)`. -/
def fixStaleState (now : Nat) (s : IndexingState) : IndexingState :=
  if s.isIndexing then
    if 0 < s.lastHeartbeat && 30000 < now - s.lastHeartbeat then
      { s with isIndexing := false }
    else s
  else s

/-- A parsed on-disk envelope (the value of `JSON.parse(data)`). -/
structure RawDatabases (V : Type) where
  version : String
  lastUpdate : Nat
  titles : StrMap (TitleEmbedding V)
  headings : StrMap (HeadingEmbedding V)
  content : StrMap (ContentEmbedding V)
  rawTitlesState : RawIndexingState
  rawHeadingsState : RawIndexingState
  rawContentState : RawIndexingState

/-- `AIEmbeddingDatabase.load` on an existing, parseable file: version check
(mismatch resets to an empty envelope), heartbeat normalization and stale-lock
recovery per collection. -/
def loadDb {V : Type} (loaded : RawDatabases V) (now : Nat) :
    EmbeddingDatabases V :=
  if loaded.version == "2.0.0" then
    { version := loaded.version, lastUpdate := loaded.lastUpdate,
      titles := loaded.titles, headings := loaded.headings,
      content := loaded.content,
      indexingStates :=
        { titles := fixStaleState now (normalizeRawState loaded.rawTitlesState),
          headings := fixStaleState now (normalizeRawState loaded.rawHeadingsState),
          content := fixStaleState now (normalizeRawState loaded.rawContentState) } }
  else
    createEmptyDatabase V now

/-!  `AIWorkerService` (defined in `src/AI/AIEmbeddingDatabase.ts`): the
off-main-thread inference client.  Its mutable fields are modelled as a state
record; `Date.now()` values become explicit `now` arguments. -/

structure WorkerServiceState where
  hasWorker : Bool
  isReady : Bool
  pendingCount : Nat
  restartAttempts : Nat
  lastRestartTime : Nat
deriving Repr, DecidableEq

def MAX_RESTART_ATTEMPTS : Nat := 3

def MIN_RESTART_INTERVAL : Nat := 5000

/-- `AIWorkerService.isWorkerReady`: `this.isReady && this.worker !== null`. -/
def isWorkerReady (w : WorkerServiceState) : Bool :=
  w.isReady && w.hasWorker

/-- `AIWorkerService.handleWorkerError` at time `now`: rejects and clears all
pending requests, marks not-ready, and applies the restart policy.  The
returned `Option Nat` is the backoff delay of the restart that was scheduled
via `setTimeout`, or `none` when no restart was scheduled.  (In JavaScript
`now - lastRestartTime` may be negative; both guards then behave exactly like
truncated `Nat` subtraction, so `Nat` subtraction is faithful.) -/
def handleWorkerError (now : Nat) (w : WorkerServiceState) :
    WorkerServiceState × Option Nat :=
  let w1 := { w with pendingCount := 0, isReady := false }
  let timeSinceLastRestart := now - w1.lastRestartTime
  let w2 := if 60000 < timeSinceLastRestart
    then { w1 with restartAttempts := 0 } else w1
  if MAX_RESTART_ATTEMPTS ≤ w2.restartAttempts then
    (w2, none)
  else if timeSinceLastRestart < MIN_RESTART_INTERVAL then
    (w2, none)
  else
    let backoffDelay := min (2000 * 2 ^ w2.restartAttempts) 10000
    ({ w2 with restartAttempts := w2.restartAttempts + 1,
               lastRestartTime := now }, some backoffDelay)

/-- A sequence of worker crashes at the given times, with no successful
restart in between (every scheduled re-`initialize` failed to reach
readiness, as in a consecutive-crash scenario).  Returns the final state and,
per crash, the scheduled backoff delay if a restart was scheduled. -/
def processCrashes (times : List Nat) (w : WorkerServiceState) :
    WorkerServiceState × List (Option Nat) :=
  match times with
  | [] => (w, [])
  | t :: rest =>
    let (w', d) := handleWorkerError t w
    let (wEnd, ds) := processCrashes rest w'
    (wEnd, d :: ds)

/-- `AIWorkerService.forceReset` (state part): terminates any worker, clears
all state and pending requests; the subsequent re-`initialize` outcome is the
`initOk` parameter (readiness reached or not). -/
def forceReset (w : WorkerServiceState) (initOk : Bool) : WorkerServiceState :=
  let wCleared : WorkerServiceState :=
    { hasWorker := false, isReady := false, pendingCount := 0,
      restartAttempts := 0, lastRestartTime := 0 }
  if initOk then { wCleared with hasWorker := true, isReady := true }
  else { wCleared with hasWorker := true }

/-!  `AIService` (`src/AI/AIService.ts`): the three-state readiness machine. -/

inductive AIState where
  | notConfigured
  | ready
  | error
deriving Repr, DecidableEq

structure AIServiceState where
  status : AIState
  message : String

/-- `AIService.isReady` as written in the source: it computes both
`workerReady` and `statusReady` (and logs their conjunction), but the value it
returns is `this.status === "ready"` alone. -/
def AIService.isReady (svc : AIServiceState) (w : WorkerServiceState) : Bool :=
  let workerReady := isWorkerReady w
  let statusReady := svc.status == AIState.ready
  let _ := workerReady
  let _ := statusReady
  svc.status == AIState.ready

/-!  `AIIndexingEngine` (`src/AI/AIIndexingEngine.ts`). -/

/-- A markdown file as the engine sees it: `file.path`, `file.basename`,
`file.stat.mtime`, the metadata cache's heading list, and the body text read
via `vault.cachedRead`. -/
structure FileRec where
  path : String
  basename : String
  mtime : Nat
  headings : List String
  content : String
deriving Repr, DecidableEq

/-- The per-collection settings toggles read by the engine. -/
structure Settings where
  aiIndexTitles : Bool
  aiIndexHeadings : Bool
  aiIndexContent : Bool
deriving Repr, DecidableEq

structure IndexingParams where
  chunkSize : Nat
  delayMs : Nat
  saveEvery : Nat
deriving Repr, DecidableEq

/-- `AIIndexingEngine.INDEXING_PARAMS`. -/
def INDEXING_PARAMS : IndexType → IndexingParams
  | IndexType.titles => { chunkSize := 25, delayMs := 5, saveEvery := 25 }
  | IndexType.headings => { chunkSize := 5, delayMs := 10, saveEvery := 15 }
  | IndexType.content => { chunkSize := 2, delayMs := 50, saveEvery := 5 }

/-- The embedding oracle: `aiService.generateEmbedding(text, 'passage')`,
which returns `null` on failure or when the service is not ready. -/
def EmbedOracle (V : Type) : Type := String → Option (List V)

/-- Tail of `AIIndexingEngine.indexTitle` after the freshness check: one
embedding call, then upsert on success.  The `Nat` counts embedding calls. -/
def indexTitleCompute {V : Type} (embed : EmbedOracle V) (f : FileRec)
    (db : EmbeddingDatabases V) : EmbeddingDatabases V × Nat :=
  match embed f.basename with
  | none => (db, 1)
  | some e =>
    (setTitleEmbedding db f.path
      { path := f.path, embedding := e, lastModified := f.mtime,
        title := f.basename }, 1)

/-- `AIIndexingEngine.indexTitle`: skip when the stored record's
`lastModified` already matches `file.stat.mtime`. -/
def indexTitle {V : Type} (embed : EmbedOracle V) (f : FileRec)
    (db : EmbeddingDatabases V) : EmbeddingDatabases V × Nat :=
  match getTitleEmbedding db f.path with
  | some existing =>
    if existing.lastModified == f.mtime then (db, 0)
    else indexTitleCompute embed f db
  | none => indexTitleCompute embed f db

/-- Tail of `AIIndexingEngine.indexHeadings` after the freshness check: a
document with no headings has any stored record removed; otherwise the
newline-joined heading list is embedded and upserted. -/
def indexHeadingsCompute {V : Type} (embed : EmbedOracle V) (f : FileRec)
    (db : EmbeddingDatabases V) : EmbeddingDatabases V × Nat :=
  if f.headings.isEmpty then
    match getHeadingEmbedding db f.path with
    | some _ => (removeHeadingEmbedding db f.path, 0)
    | none => (db, 0)
  else
    let headingsText := String.intercalate "\n" f.headings
    match embed headingsText with
    | none => (db, 1)
    | some e =>
      (setHeadingEmbedding db f.path
        { path := f.path, embedding := e, lastModified := f.mtime,
          headings := f.headings }, 1)

/-- `AIIndexingEngine.indexHeadings`. -/
def indexHeadings {V : Type} (embed : EmbedOracle V) (f : FileRec)
    (db : EmbeddingDatabases V) : EmbeddingDatabases V × Nat :=
  match getHeadingEmbedding db f.path with
  | some existing =>
    if existing.lastModified == f.mtime then (db, 0)
    else indexHeadingsCompute embed f db
  | none => indexHeadingsCompute embed f db

/-- Tail of `AIIndexingEngine.indexContent`: the body truncated to 3000
characters is embedded; a 150-character excerpt (newlines replaced by
spaces) is stored with the record. -/
def indexContentCompute {V : Type} (embed : EmbedOracle V) (f : FileRec)
    (db : EmbeddingDatabases V) : EmbeddingDatabases V × Nat :=
  let content := if 3000 < f.content.length then f.content.take 3000
    else f.content
  match embed content with
  | none => (db, 1)
  | some e =>
    (setContentEmbedding db f.path
      { path := f.path, embedding := e, lastModified := f.mtime,
        excerpt := (content.take 150).replace "\n" " " }, 1)

/-- `AIIndexingEngine.indexContent`. -/
def indexContent {V : Type} (embed : EmbedOracle V) (f : FileRec)
    (db : EmbeddingDatabases V) : EmbeddingDatabases V × Nat :=
  match getContentEmbedding db f.path with
  | some existing =>
    if existing.lastModified == f.mtime then (db, 0)
    else indexContentCompute embed f db
  | none => indexContentCompute embed f db

/-- `AIIndexingEngine.indexNote`: runs the enabled sub-routines in order and,
when `save` is set, persists the envelope (`Date.now()` is `nowSave`).
Returns the new database and the total number of embedding calls. -/
def indexNote {V : Type} (s : Settings) (embed : EmbedOracle V) (f : FileRec)
    (db : EmbeddingDatabases V) (save : Bool) (nowSave : Nat) :
    EmbeddingDatabases V × Nat :=
  let r1 := if s.aiIndexTitles then indexTitle embed f db else (db, 0)
  let r2 := if s.aiIndexHeadings then indexHeadings embed f r1.1 else (r1.1, 0)
  let r3 := if s.aiIndexContent then indexContent embed f r2.1 else (r2.1, 0)
  let db4 := if save then saveDb r3.1 nowSave else r3.1
  (db4, r1.2 + r2.2 + r3.2)

/-- `AIIndexingEngine.updateNoteIfNeeded`'s `needsUpdate` expression, exactly
as the code computes it (existence is checked in every collection, regardless
of the settings toggles). -/
def needsUpdate {V : Type} (f : FileRec) (db : EmbeddingDatabases V) : Bool :=
  let titleExists := getTitleEmbedding db f.path
  let headingExists := getHeadingEmbedding db f.path
  let contentExists := getContentEmbedding db f.path
  (match titleExists with
   | some r => !(r.lastModified == f.mtime)
   | none => false) ||
  (match headingExists with
   | some r => !(r.lastModified == f.mtime)
   | none => false) ||
  (match contentExists with
   | some r => !(r.lastModified == f.mtime)
   | none => false) ||
  (titleExists.isNone && headingExists.isNone && contentExists.isNone)

/-- `AIIndexingEngine.updateNoteIfNeeded`. -/
def updateNoteIfNeeded {V : Type} (s : Settings) (embed : EmbedOracle V)
    (f : FileRec) (db : EmbeddingDatabases V) (nowSave : Nat) :
    EmbeddingDatabases V × Nat :=
  if needsUpdate f db then indexNote s embed f db true nowSave
  else (db, 0)

/-- Modelled from the spec: the re-indexing condition as §4.2 words it —
"recomputes only if no record exists in any *enabled* collection for that
path, or an existing record's timestamp is stale".  Used only to compare the
spec's wording with the code's `needsUpdate`. -/
def specNeedsUpdate {V : Type} (s : Settings) (f : FileRec)
    (db : EmbeddingDatabases V) : Bool :=
  let noRecordInAnyEnabled :=
    !((s.aiIndexTitles && (getTitleEmbedding db f.path).isSome) ||
      (s.aiIndexHeadings && (getHeadingEmbedding db f.path).isSome) ||
      (s.aiIndexContent && (getContentEmbedding db f.path).isSome))
  let someExistingStale :=
    (match getTitleEmbedding db f.path with
     | some r => !(r.lastModified == f.mtime)
     | none => false) ||
    (match getHeadingEmbedding db f.path with
     | some r => !(r.lastModified == f.mtime)
     | none => false) ||
    (match getContentEmbedding db f.path with
     | some r => !(r.lastModified == f.mtime)
     | none => false)
  noRecordInAnyEnabled || someExistingStale

/-- `AIIndexingEngine.isAnyIndexing`. -/
def isAnyIndexing {V : Type} (db : EmbeddingDatabases V) : Bool :=
  (getIndexingState db IndexType.titles).isIndexing ||
  (getIndexingState db IndexType.headings).isIndexing ||
  (getIndexingState db IndexType.content).isIndexing

/-- `AIIndexingEngine.setAllIndexingFalse`. -/
def setAllIndexingFalse {V : Type} (db : EmbeddingDatabases V) :
    EmbeddingDatabases V :=
  let db1 := setIndexingState db IndexType.titles { isIndexing := some false }
  let db2 := setIndexingState db1 IndexType.headings { isIndexing := some false }
  setIndexingState db2 IndexType.content { isIndexing := some false }

/-- The deferred cleanup scheduled by
`AIIndexingEngine.cancelBackgroundIndexing` (~100 ms later): force all three
locks false and persist. -/
def cancelCleanup {V : Type} (db : EmbeddingDatabases V) (now : Nat) :
    EmbeddingDatabases V :=
  saveDb (setAllIndexingFalse db) now

/-- Observable effects of an indexing pass: inter-chunk delays, envelope
persists (with the persisted snapshot), `link-grabber:indexing-update`
notifications and the settings-changed event. -/
inductive IEvent (V : Type) where
  | delayEv (ms : Nat)
  | saveEv (db : EmbeddingDatabases V)
  | updateEv (t : IndexType) (isActive : Bool) (progress : Nat) (total : Nat)
  | settingsChangedEv

/-- `AIIndexingEngine.triggerIndexingUpdate`: the emitted event carries the
collection's current `isIndexing` flag and either the explicit progress/total
arguments or the stored ones. -/
def triggerIndexingUpdateEv {V : Type} (db : EmbeddingDatabases V)
    (t : IndexType) (progress? total? : Option Nat) : IEvent V :=
  let state := getIndexingState db t
  IEvent.updateEv t state.isIndexing (progress?.getD state.progress)
    (total?.getD state.total)

/-- One chunk body shared by `indexAllTitles` / `indexAllHeadings` /
`indexAllContent` (the three loops are textually identical up to the
collection type, its pacing parameters and the per-file sub-routine).
`indexDoc` is the per-file sub-routine with its per-document failures already
swallowed.  Arguments: the files not yet processed, the chunk counter `k`
(chunk `k` starts at file index `k * chunkSize`), and the running `indexed`
count.  `cancel k` is the value of the `cancelIndexing` flag when chunk `k`
polls it; `clock k` is `Date.now()` during chunk `k`.  Returns the final
database, the emitted events, and whether the loop returned early on
cancellation. -/
def indexAllLoop {V : Type} (t : IndexType) (p : IndexingParams)
    (indexDoc : FileRec → EmbeddingDatabases V → EmbeddingDatabases V)
    (cancel : Nat → Bool) (clock : Nat → Nat) (totalFiles : Nat) :
    List FileRec → Nat → Nat → EmbeddingDatabases V →
    EmbeddingDatabases V × List (IEvent V) × Bool
  | [], _, _, db => (db, [], false)
  | x :: xs, k, indexed, db =>
    if cancel k then (db, [], true)
    else
      let chunk := (x :: xs).take p.chunkSize
      let db1 := chunk.foldl (fun d f => indexDoc f d) db
      let indexed' := indexed + chunk.length
      let db2 := setIndexingState db1 t
        { progress := some indexed', lastHeartbeat := some (clock k) }
      let progressEv := IEvent.updateEv t
        (getIndexingState db2 t).isIndexing indexed' totalFiles
      let (db3, saveEvs) :=
        if indexed' % p.saveEvery == 0 then
          let saved := saveDb db2 (clock k)
          (saved, [IEvent.saveEv saved,
                   triggerIndexingUpdateEv saved t (some indexed')
                     (some totalFiles)])
        else (db2, [])
      let (dbEnd, evs, cancelled) :=
        indexAllLoop t p indexDoc cancel clock totalFiles
          (xs.drop (p.chunkSize - 1)) (k + 1) indexed' db3
      (dbEnd,
       IEvent.delayEv p.delayMs :: progressEv :: saveEvs ++ evs,
       cancelled)
termination_by files _ _ _ => files.length
decreasing_by
  simp only [List.length_drop, List.length_cons]
  omega

/-- The per-file sub-routine each of the three loops calls (with its
per-document failures swallowed by the sub-routine's own `catch`). -/
def indexDocOf {V : Type} (t : IndexType) (embed : EmbedOracle V) :
    FileRec → EmbeddingDatabases V → EmbeddingDatabases V :=
  match t with
  | IndexType.titles => fun f d => (indexTitle embed f d).1
  | IndexType.headings => fun f d => (indexHeadings embed f d).1
  | IndexType.content => fun f d => (indexContent embed f d).1

/-- `AIIndexingEngine.indexAllContent` (and its two siblings via the shared
loop): chunked iteration over the file list. -/
def indexAllOfType {V : Type} (t : IndexType) (embed : EmbedOracle V)
    (cancel : Nat → Bool) (clock : Nat → Nat) (files : List FileRec)
    (db : EmbeddingDatabases V) :
    EmbeddingDatabases V × List (IEvent V) × Bool :=
  indexAllLoop t (INDEXING_PARAMS t) (indexDocOf t embed) cancel clock
    files.length files 0 0 db

/-- `AIIndexingEngine.indexSpecificType`: global-lock guard, immediate
persisted mark, the chunked loop, then the completion path (flag cleared with
`lastIndexed`, persist, completion notification, settings-changed event, and
progress/total zeroed in memory).  `tStart` and `tEnd` are the `Date.now()`
values at the mark and at completion.  In this model per-document failures
are already swallowed, so the `catch` branch of the source is unreachable. -/
def indexSpecificType {V : Type} (t : IndexType) (embed : EmbedOracle V)
    (cancel : Nat → Bool) (clock : Nat → Nat) (files : List FileRec)
    (tStart tEnd : Nat) (db : EmbeddingDatabases V) :
    EmbeddingDatabases V × List (IEvent V) :=
  if isAnyIndexing db then (db, [])
  else
    let totalFiles := files.length
    let db1 := setIndexingState db t
      { isIndexing := some true, progress := some 0, total := some totalFiles,
        lastHeartbeat := some tStart }
    let db1s := saveDb db1 tStart
    let (db2, loopEvs, _cancelled) :=
      indexAllOfType t embed cancel clock files db1s
    let db3 := setIndexingState db2 t
      { isIndexing := some false, lastIndexed := some tEnd }
    let db3s := saveDb db3 tEnd
    let completionEv := triggerIndexingUpdateEv db3s t none none
    let db4 := setIndexingState db3s t { progress := some 0, total := some 0 }
    (db4,
     IEvent.saveEv db1s :: loopEvs ++
       [IEvent.saveEv db3s, completionEv, IEvent.settingsChangedEv])

/-!  `AISemanticSearch` (`src/AI/AISemanticSearch.ts`).  The `number` scores
are modelled as real numbers, so this part of the development is
noncomputable (`Real.sqrt` and real comparisons). -/

inductive Source where
  | title
  | heading
  | content
deriving Repr, DecidableEq

structure SearchResult where
  path : String
  score : ℝ
  title : String
  excerpt : String
  source : Source

/-- The dot-product loop of `cosineSimilarity` (`dotProduct += a[i]*b[i]`),
over the common prefix of the two lists. -/
def dotList : List ℝ → List ℝ → ℝ
  | [], _ => 0
  | _, [] => 0
  | a :: as, b :: bs => a * b + dotList as bs

/-- The squared-norm accumulators of `cosineSimilarity`
(`normA += a[i]*a[i]`). -/
def sumSq (l : List ℝ) : ℝ := dotList l l

/-- `AISemanticSearch.cosineSimilarity`: a length mismatch throws; otherwise
dot product over product of square roots, with `0` when the denominator is
`0`. -/
noncomputable def cosineSimilarity (a b : List ℝ) : Except String ℝ :=
  if a.length ≠ b.length then Except.error "Vectors must have same length"
  else
    let dotProduct := dotList a b
    let normA := sumSq a
    let normB := sumSq b
    let denominator := Real.sqrt normA * Real.sqrt normB
    Except.ok (if denominator = 0 then 0 else dotProduct / denominator)

/-- The total value of `cosineSimilarity` on equal-length inputs. -/
noncomputable def cosVal (a b : List ℝ) : ℝ :=
  let denominator := Real.sqrt (sumSq a) * Real.sqrt (sumSq b)
  if denominator = 0 then 0 else dotList a b / denominator

/-- `if (excludePath && path === excludePath) continue`. -/
def excludedPath (excludePath : Option String) (path : String) : Bool :=
  match excludePath with
  | some e => path == e
  | none => false

/-- `AISemanticSearch.getFileTitle`. -/
def getFileTitle (path : String) : String :=
  match (path.splitOn "/").getLast? with
  | some last => last.replace ".md" ""
  | none => path

/-- The title-collection scan of `findSimilar`: one scored result per stored
entry, excluded path skipped; a cosine length-mismatch propagates as the
thrown error. -/
noncomputable def collectTitles (q : List ℝ) (excludePath : Option String) :
    StrMap (TitleEmbedding ℝ) → Except String (List SearchResult)
  | [] => Except.ok []
  | (path, data) :: rest =>
    if excludedPath excludePath path then collectTitles q excludePath rest
    else
      match cosineSimilarity q data.embedding with
      | Except.error e => Except.error e
      | Except.ok score =>
        match collectTitles q excludePath rest with
        | Except.error e => Except.error e
        | Except.ok others =>
          Except.ok ({ path := path, score := score, title := data.title,
                       excerpt := data.title, source := Source.title } :: others)

/-- The heading-collection scan of `findSimilar`. -/
noncomputable def collectHeadings (q : List ℝ) (excludePath : Option String) :
    StrMap (HeadingEmbedding ℝ) → Except String (List SearchResult)
  | [] => Except.ok []
  | (path, data) :: rest =>
    if excludedPath excludePath path then collectHeadings q excludePath rest
    else
      match cosineSimilarity q data.embedding with
      | Except.error e => Except.error e
      | Except.ok score =>
        match collectHeadings q excludePath rest with
        | Except.error e => Except.error e
        | Except.ok others =>
          Except.ok ({ path := path, score := score,
                       title := getFileTitle path,
                       excerpt := String.intercalate " • " data.headings,
                       source := Source.heading } :: others)

/-- The content-collection scan of `findSimilar`. -/
noncomputable def collectContent (q : List ℝ) (excludePath : Option String) :
    StrMap (ContentEmbedding ℝ) → Except String (List SearchResult)
  | [] => Except.ok []
  | (path, data) :: rest =>
    if excludedPath excludePath path then collectContent q excludePath rest
    else
      match cosineSimilarity q data.embedding with
      | Except.error e => Except.error e
      | Except.ok score =>
        match collectContent q excludePath rest with
        | Except.error e => Except.error e
        | Except.ok others =>
          Except.ok ({ path := path, score := score,
                       title := getFileTitle path, excerpt := data.excerpt,
                       source := Source.content } :: others)

/-- The `bestByPath` map of `findSimilar`: a JS `Map` in insertion order;
`set` on an existing key replaces in place, a new key is appended. -/
noncomputable def bestByPathStep (m : List (String × SearchResult))
    (r : SearchResult) : List (String × SearchResult) :=
  match StrMap.get? m r.path with
  | none => m ++ [(r.path, r)]
  | some existing =>
    if existing.score < r.score then StrMap.set m r.path r else m

noncomputable def mergeBest (results : List SearchResult) :
    List (String × SearchResult) :=
  results.foldl bestByPathStep []

/-- Insertion step of the descending sort
(`merged.sort((a, b) => b.score - a.score)`, a stable sort). -/
noncomputable def insertDesc (r : SearchResult) :
    List SearchResult → List SearchResult
  | [] => [r]
  | x :: xs => if x.score < r.score then r :: x :: xs else x :: insertDesc r xs

noncomputable def sortByScoreDesc (l : List SearchResult) :
    List SearchResult :=
  l.foldr insertDesc []

/-- `AISemanticSearch.findSimilar`. -/
noncomputable def findSimilar (s : Settings) (db : EmbeddingDatabases ℝ)
    (queryEmbedding : List ℝ) (topK : Nat) (excludePath : Option String)
    (minScore : Option ℝ) : Except String (List SearchResult) :=
  match (if s.aiIndexTitles then collectTitles queryEmbedding excludePath db.titles
         else Except.ok []) with
  | Except.error e => Except.error e
  | Except.ok titleResults =>
    match (if s.aiIndexHeadings then
             collectHeadings queryEmbedding excludePath db.headings
           else Except.ok []) with
    | Except.error e => Except.error e
    | Except.ok headingResults =>
      match (if s.aiIndexContent then
               collectContent queryEmbedding excludePath db.content
             else Except.ok []) with
      | Except.error e => Except.error e
      | Except.ok contentResults =>
        let allResults : List SearchResult :=
          titleResults ++ headingResults ++ contentResults
        let merged : List SearchResult :=
          (mergeBest allResults).map (fun e => e.2)
        let sorted : List SearchResult := sortByScoreDesc merged
        let filtered : List SearchResult :=
          match minScore with
          | some m => if 0 < m then
                        sorted.filter (fun r => decide (m ≤ r.score))
                      else sorted
          | none => sorted
        Except.ok (filtered.take topK)

/-- `AISemanticSearch.searchByEmbedding`: option defaults
(`topK = 5`, `minScore = 0.0`) then `findSimilar`. -/
noncomputable def searchByEmbedding (s : Settings) (db : EmbeddingDatabases ℝ)
    (queryEmbedding : List ℝ) (topK : Option Nat) (excludePath : Option String)
    (minScore : Option ℝ) : Except String (List SearchResult) :=
  findSimilar s db queryEmbedding (topK.getD 5) excludePath
    (some (minScore.getD 0))

/-- The list of scored results the title scan produces (the value inside
`collectTitles`'s `ok`). -/
noncomputable def titleResultsList (q : List ℝ) (ex : Option String)
    (m : StrMap (TitleEmbedding ℝ)) : List SearchResult :=
  m.filterMap (fun e =>
    if excludedPath ex e.1 then none
    else some { path := e.1, score := cosVal q e.2.embedding,
                title := e.2.title, excerpt := e.2.title,
                source := Source.title })

/-- The list of scored results the heading scan produces. -/
noncomputable def headingResultsList (q : List ℝ) (ex : Option String)
    (m : StrMap (HeadingEmbedding ℝ)) : List SearchResult :=
  m.filterMap (fun e =>
    if excludedPath ex e.1 then none
    else some { path := e.1, score := cosVal q e.2.embedding,
                title := getFileTitle e.1,
                excerpt := String.intercalate " • " e.2.headings,
                source := Source.heading })

/-- The list of scored results the content scan produces. -/
noncomputable def contentResultsList (q : List ℝ) (ex : Option String)
    (m : StrMap (ContentEmbedding ℝ)) : List SearchResult :=
  m.filterMap (fun e =>
    if excludedPath ex e.1 then none
    else some { path := e.1, score := cosVal q e.2.embedding,
                title := getFileTitle e.1, excerpt := e.2.excerpt,
                source := Source.content })

/-- A document path's per-collection matches: the cosine score and source
for each enabled collection that stores the (non-excluded) path. -/
noncomputable def candidateScores (s : Settings) (db : EmbeddingDatabases ℝ)
    (q : List ℝ) (ex : Option String) (p : String) : List (ℝ × Source) :=
  (if s.aiIndexTitles && !(excludedPath ex p) then
    match StrMap.get? db.titles p with
    | some data => [(cosVal q data.embedding, Source.title)]
    | none => []
   else []) ++
  (if s.aiIndexHeadings && !(excludedPath ex p) then
    match StrMap.get? db.headings p with
    | some data => [(cosVal q data.embedding, Source.heading)]
    | none => []
   else []) ++
  (if s.aiIndexContent && !(excludedPath ex p) then
    match StrMap.get? db.content p with
    | some data => [(cosVal q data.embedding, Source.content)]
    | none => []
   else [])

/-- Invariant of the `bestByPath` fold: the accumulator holds, per path, the
best-scoring result seen so far among the processed results. -/
def GoodAcc (processed : List SearchResult)
    (acc : List (String × SearchResult)) : Prop :=
  (acc.map Prod.fst).Nodup ∧
  (∀ pr ∈ acc, pr.2.path = pr.1) ∧
  (∀ pr ∈ acc, pr.2 ∈ processed) ∧
  (∀ pr ∈ acc, ∀ r ∈ processed, r.path = pr.1 → r.score ≤ pr.2.score) ∧
  (∀ r ∈ processed, r.path ∈ acc.map Prod.fst)

/-!  Declarative characterizations used by the refinement-style theorems. -/

/-- Declarative form of the code's re-indexing condition in
`updateNoteIfNeeded`: some stored record for the path (in any of the three
collections, enabled or not) is stale, or the path has no record in any
collection. -/
def NeedsUpdateProp {V : Type} (f : FileRec) (db : EmbeddingDatabases V) :
    Prop :=
  (∃ r, getTitleEmbedding db f.path = some r ∧ r.lastModified ≠ f.mtime) ∨
  (∃ r, getHeadingEmbedding db f.path = some r ∧ r.lastModified ≠ f.mtime) ∨
  (∃ r, getContentEmbedding db f.path = some r ∧ r.lastModified ≠ f.mtime) ∨
  (getTitleEmbedding db f.path = none ∧ getHeadingEmbedding db f.path = none ∧
   getContentEmbedding db f.path = none)

/-- At most one of the three `isIndexing` flags is set. -/
def AtMostOneIndexing {V : Type} (db : EmbeddingDatabases V) : Prop :=
  (db.indexingStates.titles.isIndexing = false ∧
   db.indexingStates.headings.isIndexing = false) ∨
  (db.indexingStates.titles.isIndexing = false ∧
   db.indexingStates.content.isIndexing = false) ∨
  (db.indexingStates.headings.isIndexing = false ∧
   db.indexingStates.content.isIndexing = false)

/-- The triple of `isIndexing` flags of an envelope. -/
def indexingFlags {V : Type} (db : EmbeddingDatabases V) :
    Bool × Bool × Bool :=
  (db.indexingStates.titles.isIndexing,
   db.indexingStates.headings.isIndexing,
   db.indexingStates.content.isIndexing)

/-- The envelopes persisted by the events of a run, in order. -/
def savedEnvelopes {V : Type} (evs : List (IEvent V)) :
    List (EmbeddingDatabases V) :=
  evs.filterMap (fun e => match e with
    | IEvent.saveEv d => some d
    | _ => none)

/-- The cumulative processed-document counts at the chunk boundaries of a
chunked pass: starting from `acc` processed with `n` remaining in chunks of
`c`. -/
def cumCountsFrom (c acc n : Nat) : List Nat :=
  if c = 0 then []
  else if n = 0 then []
  else (acc + min c n) :: cumCountsFrom c (acc + min c n) (n - min c n)
termination_by n
decreasing_by omega

def cumCounts (c n : Nat) : List Nat := cumCountsFrom c 0 n

/-- The `progress` value of the collection-`t` state in each envelope
persisted by the loop's events. -/
def savedProgressValues {V : Type} (t : IndexType) (evs : List (IEvent V)) :
    List Nat :=
  (savedEnvelopes evs).map (fun d => (getIndexingState d t).progress)

/-- No progress notification in the event list carries the given progress
value. -/
def noUpdateWithProgress {V : Type} (p : Nat) (evs : List (IEvent V)) : Bool :=
  evs.all (fun e => match e with
    | IEvent.updateEv _ _ pr _ => !(pr == p)
    | _ => true)

/-!  Concrete fixtures for witnesses and counterexamples. -/

def emptyStates : IndexingStates :=
  { titles := createEmptyState, headings := createEmptyState,
    content := createEmptyState }

def sampleFile : FileRec :=
  { path := "a.md", basename := "a", mtime := 5, headings := ["h1"],
    content := "body text" }

/-- A database in which `a.md` has a fresh record in all three collections. -/
def dbAllFresh : EmbeddingDatabases Nat :=
  { version := "2.0.0", lastUpdate := 0,
    titles := [("a.md", { path := "a.md", embedding := [1], lastModified := 5,
                          title := "a" })],
    headings := [("a.md", { path := "a.md", embedding := [2], lastModified := 5,
                            headings := ["h1"] })],
    content := [("a.md", { path := "a.md", embedding := [3], lastModified := 5,
                           excerpt := "body text" })],
    indexingStates := emptyStates }

/-- A database in which `a.md` has a fresh record only in the titles
collection. -/
def dbTitleOnly : EmbeddingDatabases Nat :=
  { version := "2.0.0", lastUpdate := 0,
    titles := [("a.md", { path := "a.md", embedding := [1], lastModified := 5,
                          title := "a" })],
    headings := [], content := [], indexingStates := emptyStates }

def dbEmptyNat : EmbeddingDatabases Nat := createEmptyDatabase Nat 0

/-- A persisted envelope whose content collection claims to be mid-index with
a zero (never-recorded) heartbeat. -/
def rawStaleZeroHb : RawDatabases Nat :=
  { version := "2.0.0", lastUpdate := 0, titles := [], headings := [],
    content := [],
    rawTitlesState := { isIndexing := false, progress := 0, total := 0,
                        lastIndexed := 0, lastHeartbeat := some 0 },
    rawHeadingsState := { isIndexing := false, progress := 0, total := 0,
                          lastIndexed := 0, lastHeartbeat := some 0 },
    rawContentState := { isIndexing := true, progress := 3, total := 10,
                         lastIndexed := 0, lastHeartbeat := some 0 } }

/-- A freshly-working inference client: worker up, ready, no restart
history. -/
def freshWorker : WorkerServiceState :=
  { hasWorker := true, isReady := true, pendingCount := 0,
    restartAttempts := 0, lastRestartTime := 0 }

/-- All three collections enabled. -/
def sAllOn : Settings :=
  { aiIndexTitles := true, aiIndexHeadings := true, aiIndexContent := true }

/-- A real-valued store in which `p.md` is indexed in the titles collection
(embedding `[1,0]`) and the content collection (embedding `[0,1]`). -/
noncomputable def dbSearchWit : EmbeddingDatabases ℝ :=
  { version := "2.0.0", lastUpdate := 0,
    titles := [("p.md", { path := "p.md", embedding := [1, 0],
                          lastModified := 1, title := "p" })],
    headings := [],
    content := [("p.md", { path := "p.md", embedding := [0, 1],
                           lastModified := 1, excerpt := "x" })],
    indexingStates := emptyStates }

/-- A database whose titles collection is mid-index. -/
def dbBusyNat : EmbeddingDatabases Nat :=
  { version := "2.0.0", lastUpdate := 0, titles := [], headings := [],
    content := [],
    indexingStates :=
      { titles := { isIndexing := true, progress := 3, total := 9,
                    lastIndexed := 0, lastHeartbeat := 42 },
        headings := createEmptyState, content := createEmptyState } }

def mkFile (p : String) : FileRec :=
  { path := p, basename := p, mtime := 1, headings := [], content := "x" }

/-- A vault of 10 markdown files. -/
def files10 : List FileRec :=
  [mkFile "a0.md", mkFile "a1.md", mkFile "a2.md", mkFile "a3.md",
   mkFile "a4.md", mkFile "a5.md", mkFile "a6.md", mkFile "a7.md",
   mkFile "a8.md", mkFile "a9.md"]

/-!  # Theorems -/

/-!  ## C1 — `AIService.isReady` and worker readiness -/

/-- C1: the claim states that `isReady()` returns `true` only when both the
persisted status is `ready` and the worker client reports its unit ready.
The code computes (and logs) exactly that conjunction but returns only the
status comparison: with status `ready` and a worker that is not ready,
`isReady()` evaluates to `true`, contradicting the claim.  This theorem
evaluates the embedded code at that failing input. -/
theorem C1_isReady_ignores_worker_readiness :
    AIService.isReady { status := AIState.ready, message := "AI Model loaded" }
      { hasWorker := true, isReady := false, pendingCount := 0,
        restartAttempts := 0, lastRestartTime := 0 } = true ∧
    isWorkerReady
      { hasWorker := true, isReady := false, pendingCount := 0,
        restartAttempts := 0, lastRestartTime := 0 } = false := by
  constructor <;> rfl

/-!  ## C3 — stale-lock recovery in `load()` -/

/-- C3 counterexample: a persisted envelope with `isIndexing = true` whose
`lastHeartbeat` is `0` — a timestamp more than 30 seconds in the past of
`now = 1000000` — is NOT cleared by `load()`, because the code only treats a
heartbeat as stale when it is strictly positive.  The claim, which demands
the flag be `false` for every heartbeat more than 30 seconds in the past, is
therefore false at this input. -/
theorem C3_counterexample_zero_heartbeat :
    30000 <
      1000000 - (normalizeRawState rawStaleZeroHb.rawContentState).lastHeartbeat ∧
    rawStaleZeroHb.rawContentState.isIndexing = true ∧
    (getIndexingState (loadDb rawStaleZeroHb 1000000)
      IndexType.content).isIndexing = true := by
  refine ⟨by decide, rfl, rfl⟩

/-- C3 (amended): after `load()`, a collection flagged `isIndexing` is
cleared exactly when its (normalized) heartbeat is positive and more than 30
seconds older than `now` — an if-and-only-if, for every envelope and every
`now`; consequently a zero (or absent, normalized to zero) heartbeat is never
treated as stale, and a heartbeat 10 seconds in the past keeps the flag. -/
theorem C3_stale_lock_recovery {V : Type} (loaded : RawDatabases V)
    (now : Nat) (hver : loaded.version = "2.0.0")
    (hidx : loaded.rawContentState.isIndexing = true) :
    (((getIndexingState (loadDb loaded now) IndexType.content).isIndexing
        = false) ↔
      (0 < (normalizeRawState loaded.rawContentState).lastHeartbeat ∧
       30000 < now - (normalizeRawState loaded.rawContentState).lastHeartbeat)) ∧
    ((normalizeRawState loaded.rawContentState).lastHeartbeat = 0 →
     (getIndexingState (loadDb loaded now) IndexType.content).isIndexing
       = true) ∧
    (now - (normalizeRawState loaded.rawContentState).lastHeartbeat = 10000 →
     (getIndexingState (loadDb loaded now) IndexType.content).isIndexing
       = true) := by
  have hload : getIndexingState (loadDb loaded now) IndexType.content =
      fixStaleState now (normalizeRawState loaded.rawContentState) := by
    simp [loadDb, hver, getIndexingState]
  have hnidx : (normalizeRawState loaded.rawContentState).isIndexing = true := by
    simp [normalizeRawState, hidx]
  rw [hload]
  by_cases hpos : 0 < (normalizeRawState loaded.rawContentState).lastHeartbeat
  · by_cases hst : 30000 <
        now - (normalizeRawState loaded.rawContentState).lastHeartbeat
    · refine ⟨⟨fun _ => ⟨hpos, hst⟩, fun _ => ?_⟩,
        fun h0 => by exfalso; omega, fun h10 => by exfalso; omega⟩
      simp [fixStaleState, hnidx, hpos, hst]
    · have hkeep : (fixStaleState now
          (normalizeRawState loaded.rawContentState)).isIndexing = true := by
        simp [fixStaleState, hnidx, hst]
      exact ⟨⟨fun hf => by simp [hkeep] at hf, fun hco => absurd hco.2 hst⟩,
        fun _ => hkeep, fun _ => hkeep⟩
  · have hkeep : (fixStaleState now
        (normalizeRawState loaded.rawContentState)).isIndexing = true := by
      simp [fixStaleState, hnidx, hpos]
    exact ⟨⟨fun hf => by simp [hkeep] at hf, fun hco => absurd hco.1 hpos⟩,
      fun _ => hkeep, fun _ => hkeep⟩

/-- Witness for `C3_stale_lock_recovery`: a zero heartbeat keeps the flag
across `load()`. -/
theorem C3_stale_lock_recovery_witness :
    rawStaleZeroHb.version = "2.0.0" ∧
    rawStaleZeroHb.rawContentState.isIndexing = true ∧
    (normalizeRawState rawStaleZeroHb.rawContentState).lastHeartbeat = 0 ∧
    (getIndexingState (loadDb rawStaleZeroHb 10000)
      IndexType.content).isIndexing = true :=
  ⟨rfl, rfl, by decide,
    (C3_stale_lock_recovery rawStaleZeroHb 10000 rfl rfl).2.1 (by decide)⟩

/-!  ## C9 — bounded worker-restart policy -/

/-- A crash that proceeds to schedule a restart: the attempt counter is under
the bound and the previous restart attempt is between 5 and 60 seconds old. -/
theorem handleWorkerError_proceed (now : Nat) (w : WorkerServiceState)
    (hA : w.restartAttempts < 3)
    (h5 : 5000 ≤ now - w.lastRestartTime)
    (h60 : now - w.lastRestartTime ≤ 60000) :
    handleWorkerError now w =
      ({ w with pendingCount := 0, isReady := false,
                restartAttempts := w.restartAttempts + 1,
                lastRestartTime := now },
       some (min (2000 * 2 ^ w.restartAttempts) 10000)) := by
  unfold handleWorkerError MAX_RESTART_ATTEMPTS MIN_RESTART_INTERVAL
  have c1 : ¬ (60000 < now - w.lastRestartTime) := by omega
  have c2 : ¬ (3 ≤ w.restartAttempts) := by omega
  have c3 : ¬ (now - w.lastRestartTime < 5000) := by omega
  simp [c1, c2, c3]

/-- A crash more than 60 seconds after the previous restart attempt: the
counter resets and a first restart (2 s backoff) is scheduled. -/
theorem handleWorkerError_reset (now : Nat) (w : WorkerServiceState)
    (h60 : 60000 < now - w.lastRestartTime) :
    handleWorkerError now w =
      ({ w with pendingCount := 0, isReady := false, restartAttempts := 1,
                lastRestartTime := now },
       some 2000) := by
  unfold handleWorkerError MAX_RESTART_ATTEMPTS MIN_RESTART_INTERVAL
  have c3 : ¬ (now - w.lastRestartTime < 5000) := by omega
  simp [h60, c3]

/-- A crash with the attempt counter exhausted and less than 60 seconds of
quiet: no restart is scheduled and the client stays not-ready. -/
theorem handleWorkerError_stop (now : Nat) (w : WorkerServiceState)
    (hA : 3 ≤ w.restartAttempts)
    (h60 : now - w.lastRestartTime ≤ 60000) :
    handleWorkerError now w =
      ({ w with pendingCount := 0, isReady := false }, none) := by
  unfold handleWorkerError MAX_RESTART_ATTEMPTS MIN_RESTART_INTERVAL
  have c1 : ¬ (60000 < now - w.lastRestartTime) := by omega
  simp [c1, hA]

/-- C9 counterexample: four consecutive crashes inside a 60-second window
(at 100000, 101000, 110000 and 120000 ms) where the second crash falls inside
the 5-second anti-storm interval.  The skipped restart leaves the attempt
counter at 2, so the FOURTH crash schedules another restart (8 s backoff),
contradicting the claim that the 4th of any such sequence triggers none. -/
theorem C9_counterexample_fourth_crash_restarts :
    120000 - 100000 ≤ 60000 ∧
    (processCrashes [100000, 101000, 110000, 120000] freshWorker).2 =
      [some 2000, none, some 4000, some 8000] := by
  constructor
  · decide
  · rfl

/-- C9 (amended): for four consecutive crashes inside a 60-second window with
at least 5 seconds between consecutive crashes (and no successful restart in
between), the first three crashes schedule restarts with backoff
`min(2000 * 2^attempts, 10000)` = 2 s, 4 s, 8 s; the fourth schedules none
and leaves the client not-ready with the counter exhausted; any further crash
within 60 s of the last restart attempt also schedules nothing; and the state
is recoverable by a manual `forceReset`, which zeroes the counter. -/
theorem C9_restart_bound (t1 t2 t3 t4 : Nat)
    (h1 : 60000 < t1)
    (g2 : 5000 ≤ t2 - t1) (g3 : 5000 ≤ t3 - t2) (g4 : 5000 ≤ t4 - t3)
    (hwin : t4 - t1 ≤ 60000) :
    processCrashes [t1, t2, t3, t4] freshWorker =
      ({ hasWorker := true, isReady := false, pendingCount := 0,
         restartAttempts := 3, lastRestartTime := t3 },
       [some (min (2000 * 2 ^ 0) 10000), some (min (2000 * 2 ^ 1) 10000),
        some (min (2000 * 2 ^ 2) 10000), none]) ∧
    (∀ t5, t5 - t3 ≤ 60000 →
      (handleWorkerError t5
        { hasWorker := true, isReady := false, pendingCount := 0,
          restartAttempts := 3, lastRestartTime := t3 }).2 = none) ∧
    (forceReset
      { hasWorker := true, isReady := false, pendingCount := 0,
        restartAttempts := 3, lastRestartTime := t3 } true).restartAttempts
      = 0 := by
  have ht12 : t1 + 5000 ≤ t2 := by omega
  have ht23 : t2 + 5000 ≤ t3 := by omega
  have ht34 : t3 + 5000 ≤ t4 := by omega
  have e1 := handleWorkerError_reset t1 freshWorker
    (by simp [freshWorker]; omega)
  have e2 := handleWorkerError_proceed t2
    { hasWorker := true, isReady := false, pendingCount := 0,
      restartAttempts := 1, lastRestartTime := t1 }
    (by simp) (by simp; omega) (by simp; omega)
  have e3 := handleWorkerError_proceed t3
    { hasWorker := true, isReady := false, pendingCount := 0,
      restartAttempts := 2, lastRestartTime := t2 }
    (by simp) (by simp; omega) (by simp; omega)
  have e4 := handleWorkerError_stop t4
    { hasWorker := true, isReady := false, pendingCount := 0,
      restartAttempts := 3, lastRestartTime := t3 }
    (by simp) (by simp; omega)
  refine ⟨?_, ?_, rfl⟩
  · simp only [processCrashes, freshWorker] at *
    rw [e1]
    simp only []
    rw [e2]
    simp only []
    rw [e3]
    simp only []
    rw [e4]
    norm_num
  · intro t5 h5
    have e5 := handleWorkerError_stop t5
      { hasWorker := true, isReady := false, pendingCount := 0,
        restartAttempts := 3, lastRestartTime := t3 }
      (by simp) (by simp; omega)
    rw [e5]

/-- Witness for `C9_restart_bound` at crashes 100000, 115000, 130000,
145000 ms. -/
theorem C9_restart_bound_witness :
    (60000 < 100000 ∧ 5000 ≤ 115000 - 100000 ∧ 5000 ≤ 130000 - 115000 ∧
     5000 ≤ 145000 - 130000 ∧ 145000 - 100000 ≤ 60000) ∧
    processCrashes [100000, 115000, 130000, 145000] freshWorker =
      ({ hasWorker := true, isReady := false, pendingCount := 0,
         restartAttempts := 3, lastRestartTime := 130000 },
       [some (min (2000 * 2 ^ 0) 10000), some (min (2000 * 2 ^ 1) 10000),
        some (min (2000 * 2 ^ 2) 10000), none]) :=
  ⟨by decide,
   (C9_restart_bound 100000 115000 130000 145000 (by decide) (by decide)
     (by decide) (by decide) (by decide)).1⟩

/-!  ## C7 — idempotence of `indexNote` on an unchanged document -/

/-- C7: when the stored title, heading and content records for a document all
carry the document's current modification time, `indexNote` performs zero
embedding calls and leaves every stored record — and the indexing states —
unchanged (only `save` refreshes the envelope's `lastUpdate`). -/
theorem C7_indexNote_idempotent {V : Type} (s : Settings)
    (embed : EmbedOracle V) (f : FileRec) (db : EmbeddingDatabases V)
    (save : Bool) (nowSave : Nat)
    (ht : ∃ r, getTitleEmbedding db f.path = some r ∧ r.lastModified = f.mtime)
    (hh : ∃ r, getHeadingEmbedding db f.path = some r ∧ r.lastModified = f.mtime)
    (hc : ∃ r, getContentEmbedding db f.path = some r ∧ r.lastModified = f.mtime) :
    (indexNote s embed f db save nowSave).2 = 0 ∧
    (indexNote s embed f db save nowSave).1.titles = db.titles ∧
    (indexNote s embed f db save nowSave).1.headings = db.headings ∧
    (indexNote s embed f db save nowSave).1.content = db.content ∧
    (indexNote s embed f db save nowSave).1.indexingStates
      = db.indexingStates := by
  obtain ⟨rt, hgt, hlt⟩ := ht
  obtain ⟨rh, hgh, hlh⟩ := hh
  obtain ⟨rc, hgc, hlc⟩ := hc
  have e1 : indexTitle embed f db = (db, 0) := by
    unfold indexTitle
    rw [hgt]
    simp [hlt]
  have e2 : indexHeadings embed f db = (db, 0) := by
    unfold indexHeadings
    rw [hgh]
    simp [hlh]
  have e3 : indexContent embed f db = (db, 0) := by
    unfold indexContent
    rw [hgc]
    simp [hlc]
  unfold indexNote
  cases s.aiIndexTitles <;> cases s.aiIndexHeadings <;>
    cases s.aiIndexContent <;> cases save <;>
    simp [e1, e2, e3, saveDb]

/-- Witness for `C7_indexNote_idempotent` on `dbAllFresh`, whose three
records all carry `sampleFile`'s modification time 5. -/
theorem C7_indexNote_idempotent_witness :
    (∃ r, getTitleEmbedding dbAllFresh sampleFile.path = some r ∧
      r.lastModified = sampleFile.mtime) ∧
    (indexNote { aiIndexTitles := true, aiIndexHeadings := true,
                 aiIndexContent := true }
      (fun _ => some [9]) sampleFile dbAllFresh true 99).2 = 0 ∧
    (indexNote { aiIndexTitles := true, aiIndexHeadings := true,
                 aiIndexContent := true }
      (fun _ => some [9]) sampleFile dbAllFresh true 99).1.titles
      = dbAllFresh.titles :=
  ⟨⟨{ path := "a.md", embedding := [1], lastModified := 5, title := "a" },
    rfl, rfl⟩,
   (C7_indexNote_idempotent _ _ sampleFile dbAllFresh true 99
      ⟨_, rfl, rfl⟩ ⟨_, rfl, rfl⟩ ⟨_, rfl, rfl⟩).1,
   (C7_indexNote_idempotent _ _ sampleFile dbAllFresh true 99
      ⟨_, rfl, rfl⟩ ⟨_, rfl, rfl⟩ ⟨_, rfl, rfl⟩).2.1⟩

/-!  ## C8 — `updateNoteIfNeeded` trigger condition -/

/-- C8 counterexample: with titles disabled and headings/content enabled, a
document whose only (fresh) record lives in the disabled titles collection
has no record in any ENABLED collection, so the claim requires a re-index;
the code checks existence across all collections regardless of the settings
and does nothing: zero embedding calls, database unchanged. -/
theorem C8_counterexample_disabled_collection :
    specNeedsUpdate
      { aiIndexTitles := false, aiIndexHeadings := true,
        aiIndexContent := true } sampleFile dbTitleOnly = true ∧
    updateNoteIfNeeded
      { aiIndexTitles := false, aiIndexHeadings := true,
        aiIndexContent := true }
      (fun _ => some [7]) sampleFile dbTitleOnly 99 = (dbTitleOnly, 0) := by
  constructor
  · rfl
  · rfl

/-- C8 (amended): `updateNoteIfNeeded` re-indexes (delegating to `indexNote`
with a save) exactly when some existing record — in ANY of the three
collections, enabled or not — has a stale `lastModified`, or when the path
has no record in any collection; in every other case it performs no embedding
call and no mutation. -/
theorem C8_updateNoteIfNeeded_trigger {V : Type} (s : Settings)
    (embed : EmbedOracle V) (f : FileRec) (db : EmbeddingDatabases V)
    (nowSave : Nat) :
    (NeedsUpdateProp f db →
      updateNoteIfNeeded s embed f db nowSave
        = indexNote s embed f db true nowSave) ∧
    (¬ NeedsUpdateProp f db →
      updateNoteIfNeeded s embed f db nowSave = (db, 0)) := by
  have hiff : needsUpdate f db = true ↔ NeedsUpdateProp f db := by
    unfold needsUpdate NeedsUpdateProp
    cases hgt : getTitleEmbedding db f.path <;>
      cases hgh : getHeadingEmbedding db f.path <;>
      cases hgc : getContentEmbedding db f.path <;>
      simp [hgt, hgh, hgc] <;> tauto
  constructor
  · intro h
    unfold updateNoteIfNeeded
    rw [if_pos (hiff.mpr h)]
  · intro h
    unfold updateNoteIfNeeded
    rw [if_neg]
    simp only [hiff]
    exact h

/-- Witness for `C8_updateNoteIfNeeded_trigger`: an empty database (no record
anywhere) satisfies the trigger condition and makes `updateNoteIfNeeded`
delegate to `indexNote`. -/
theorem C8_updateNoteIfNeeded_trigger_witness :
    NeedsUpdateProp sampleFile dbEmptyNat ∧
    updateNoteIfNeeded
      { aiIndexTitles := true, aiIndexHeadings := true,
        aiIndexContent := true }
      (fun _ => some [7]) sampleFile dbEmptyNat 99
      = indexNote
          { aiIndexTitles := true, aiIndexHeadings := true,
            aiIndexContent := true }
          (fun _ => some [7]) sampleFile dbEmptyNat true 99 :=
  ⟨Or.inr (Or.inr (Or.inr ⟨rfl, rfl, rfl⟩)),
   (C8_updateNoteIfNeeded_trigger _ _ sampleFile dbEmptyNat 99).1
     (Or.inr (Or.inr (Or.inr ⟨rfl, rfl, rfl⟩)))⟩

/-!  ## Chunk-loop lemmas shared by C2, C4 and C10 -/

theorem savedEnvelopes_cons_delay {V : Type} (m : Nat) (l : List (IEvent V)) :
    savedEnvelopes (IEvent.delayEv m :: l) = savedEnvelopes l := rfl

theorem savedEnvelopes_cons_update {V : Type} (t : IndexType) (a : Bool)
    (pr tot : Nat) (l : List (IEvent V)) :
    savedEnvelopes (IEvent.updateEv t a pr tot :: l) = savedEnvelopes l := rfl

theorem savedEnvelopes_cons_save {V : Type} (d : EmbeddingDatabases V)
    (l : List (IEvent V)) :
    savedEnvelopes (IEvent.saveEv d :: l) = d :: savedEnvelopes l := rfl

theorem savedEnvelopes_cons_settings {V : Type} (l : List (IEvent V)) :
    savedEnvelopes (IEvent.settingsChangedEv :: l) = savedEnvelopes l := rfl

theorem savedEnvelopes_cons_trigger {V : Type} (d : EmbeddingDatabases V)
    (t : IndexType) (a b : Option Nat) (l : List (IEvent V)) :
    savedEnvelopes (triggerIndexingUpdateEv d t a b :: l)
      = savedEnvelopes l := rfl

theorem savedEnvelopes_append {V : Type} (l1 l2 : List (IEvent V)) :
    savedEnvelopes (l1 ++ l2) = savedEnvelopes l1 ++ savedEnvelopes l2 :=
  List.filterMap_append l1 l2 _

theorem getIndexingState_saveDb {V : Type} (d : EmbeddingDatabases V)
    (n : Nat) (t : IndexType) :
    getIndexingState (saveDb d n) t = getIndexingState d t := by
  cases t <;> rfl

theorem getIndexingState_set_patch_same {V : Type} (d : EmbeddingDatabases V)
    (t : IndexType) (a b : Nat) :
    getIndexingState (setIndexingState d t
      { progress := some a, lastHeartbeat := some b }) t
      = { getIndexingState d t with progress := a, lastHeartbeat := b } := by
  cases t <;> rfl

theorem getIndexingState_congr {V : Type} (d db : EmbeddingDatabases V)
    (h : d.indexingStates = db.indexingStates) (t : IndexType) :
    getIndexingState d t = getIndexingState db t := by
  cases t <;> simp [getIndexingState, h]

theorem getIndexingState_set_other {V : Type} (d : EmbeddingDatabases V)
    (t t' : IndexType) (p : IndexingStatePatch) (h : t' ≠ t) :
    getIndexingState (setIndexingState d t p) t' = getIndexingState d t' := by
  cases t <;> cases t' <;> first
    | exact absurd rfl h
    | rfl

theorem getIndexingState_set_self {V : Type} (d : EmbeddingDatabases V)
    (t : IndexType) (p : IndexingStatePatch) :
    getIndexingState (setIndexingState d t p) t
      = applyPatch (getIndexingState d t) p := by
  cases t <;> rfl

theorem indexTitle_states {V : Type} (embed : EmbedOracle V) (f : FileRec)
    (d : EmbeddingDatabases V) :
    ((indexTitle embed f d).1).indexingStates = d.indexingStates := by
  unfold indexTitle indexTitleCompute
  cases hget : getTitleEmbedding d f.path with
  | none => cases hemb : embed f.basename <;> simp [hemb, setTitleEmbedding]
  | some r =>
    by_cases h : (r.lastModified == f.mtime) = true
    · simp [h]
    · simp only [h, if_false, Bool.false_eq_true]
      cases hemb : embed f.basename <;> simp [hemb, setTitleEmbedding]

theorem indexHeadings_states {V : Type} (embed : EmbedOracle V) (f : FileRec)
    (d : EmbeddingDatabases V) :
    ((indexHeadings embed f d).1).indexingStates = d.indexingStates := by
  unfold indexHeadings indexHeadingsCompute
  cases hget : getHeadingEmbedding d f.path with
  | none =>
    by_cases he : f.headings.isEmpty = true
    · simp [he, hget, removeHeadingEmbedding]
    · simp only [he, if_false, Bool.false_eq_true]
      cases hemb : embed (String.intercalate "\n" f.headings) <;>
        simp [hemb, setHeadingEmbedding]
  | some r =>
    by_cases h : (r.lastModified == f.mtime) = true
    · simp [h]
    · simp only [h, if_false, Bool.false_eq_true]
      by_cases he : f.headings.isEmpty = true
      · simp [he, hget, removeHeadingEmbedding]
      · simp only [he, if_false, Bool.false_eq_true]
        cases hemb : embed (String.intercalate "\n" f.headings) <;>
          simp [hemb, setHeadingEmbedding]

theorem indexContent_states {V : Type} (embed : EmbedOracle V) (f : FileRec)
    (d : EmbeddingDatabases V) :
    ((indexContent embed f d).1).indexingStates = d.indexingStates := by
  unfold indexContent indexContentCompute
  cases hget : getContentEmbedding d f.path with
  | none =>
    cases hemb : embed (if 3000 < f.content.length then f.content.take 3000
      else f.content) <;> simp [hemb, setContentEmbedding]
  | some r =>
    by_cases h : (r.lastModified == f.mtime) = true
    · simp [h]
    · simp only [h, if_false, Bool.false_eq_true]
      cases hemb : embed (if 3000 < f.content.length then f.content.take 3000
        else f.content) <;> simp [hemb, setContentEmbedding]

theorem indexDocOf_states {V : Type} (t : IndexType) (embed : EmbedOracle V)
    (f : FileRec) (d : EmbeddingDatabases V) :
    (indexDocOf t embed f d).indexingStates = d.indexingStates := by
  cases t with
  | titles => exact indexTitle_states embed f d
  | headings => exact indexHeadings_states embed f d
  | content => exact indexContent_states embed f d

theorem foldl_indexDoc_pres {V : Type}
    (indexDoc : FileRec → EmbeddingDatabases V → EmbeddingDatabases V)
    (I : EmbeddingDatabases V → Prop)
    (hDoc : ∀ f d, I d → I (indexDoc f d))
    (chunk : List FileRec) (db : EmbeddingDatabases V) (h : I db) :
    I (chunk.foldl (fun d f => indexDoc f d) db) := by
  induction chunk generalizing db with
  | nil => exact h
  | cons f fs ih =>
    simp only [List.foldl_cons]
    exact ih _ (hDoc _ _ h)

theorem foldl_indexDoc_states {V : Type}
    (indexDoc : FileRec → EmbeddingDatabases V → EmbeddingDatabases V)
    (hstates : ∀ f d, (indexDoc f d).indexingStates = d.indexingStates)
    (chunk : List FileRec) (db : EmbeddingDatabases V) :
    (chunk.foldl (fun d f => indexDoc f d) db).indexingStates
      = db.indexingStates := by
  induction chunk generalizing db with
  | nil => rfl
  | cons f fs ih =>
    simp only [List.foldl_cons]
    rw [ih, hstates]

/-- Any property of the database preserved by the per-file sub-routine, by
the progress/heartbeat patch and by `save` is an invariant of the chunk loop,
and holds of every envelope the loop persists. -/
theorem indexAllLoop_invariant {V : Type} (t : IndexType) (p : IndexingParams)
    (indexDoc : FileRec → EmbeddingDatabases V → EmbeddingDatabases V)
    (cancel : Nat → Bool) (clock : Nat → Nat) (total : Nat)
    (I : EmbeddingDatabases V → Prop)
    (hDoc : ∀ f d, I d → I (indexDoc f d))
    (hSet : ∀ d a b, I d →
      I (setIndexingState d t
          { progress := some a, lastHeartbeat := some b }))
    (hSave : ∀ d n, I d → I (saveDb d n)) :
    ∀ (rest : List FileRec) (k indexed : Nat) (db : EmbeddingDatabases V),
      I db →
      I (indexAllLoop t p indexDoc cancel clock total rest k indexed db).1 ∧
      ∀ env ∈ savedEnvelopes
        (indexAllLoop t p indexDoc cancel clock total rest k indexed db).2.1,
        I env
  | [], k, indexed, db, h => by
    rw [indexAllLoop]
    exact ⟨h, by simp [savedEnvelopes]⟩
  | x :: xs, k, indexed, db, h => by
    rw [indexAllLoop]
    by_cases hcan : cancel k = true
    · simp only [hcan, if_true]
      exact ⟨h, by simp [savedEnvelopes]⟩
    · simp only [hcan, if_false, Bool.false_eq_true]
      have h1 : I ((List.take p.chunkSize (x :: xs)).foldl
          (fun d f => indexDoc f d) db) :=
        foldl_indexDoc_pres indexDoc I hDoc _ _ h
      have h2 : I (setIndexingState
          ((List.take p.chunkSize (x :: xs)).foldl (fun d f => indexDoc f d) db) t
          { progress := some (indexed + (List.take p.chunkSize (x :: xs)).length),
            lastHeartbeat := some (clock k) }) := hSet _ _ _ h1
      by_cases hsv :
          ((indexed + (List.take p.chunkSize (x :: xs)).length) % p.saveEvery
            == 0) = true
      · simp only [hsv, if_true]
        have h3 : I (saveDb (setIndexingState
            ((List.take p.chunkSize (x :: xs)).foldl (fun d f => indexDoc f d) db) t
            { progress := some (indexed + (List.take p.chunkSize (x :: xs)).length),
              lastHeartbeat := some (clock k) }) (clock k)) := hSave _ _ h2
        have IH := indexAllLoop_invariant t p indexDoc cancel clock total I
          hDoc hSet hSave (xs.drop (p.chunkSize - 1)) (k + 1)
          (indexed + (List.take p.chunkSize (x :: xs)).length) _ h3
        refine ⟨IH.1, ?_⟩
        intro env henv
        simp only [List.cons_append, List.nil_append,
          savedEnvelopes_cons_delay, savedEnvelopes_cons_update,
          savedEnvelopes_cons_save, savedEnvelopes_cons_trigger] at henv
        rcases List.mem_cons.mp henv with h' | h'
        · exact h' ▸ h3
        · exact IH.2 env h'
      · simp only [hsv, if_false, Bool.false_eq_true]
        have IH := indexAllLoop_invariant t p indexDoc cancel clock total I
          hDoc hSet hSave (xs.drop (p.chunkSize - 1)) (k + 1)
          (indexed + (List.take p.chunkSize (x :: xs)).length) _ h2
        refine ⟨IH.1, ?_⟩
        intro env henv
        simp only [List.cons_append, List.nil_append,
          savedEnvelopes_cons_delay, savedEnvelopes_cons_update] at henv
        exact IH.2 env henv
termination_by rest _ _ _ _ => rest.length
decreasing_by
  all_goals simp only [List.length_drop, List.length_cons]
  all_goals omega

theorem savedProgressValues_def {V : Type} (t : IndexType)
    (evs : List (IEvent V)) :
    savedProgressValues t evs
      = (savedEnvelopes evs).map (fun d => (getIndexingState d t).progress) :=
  rfl

/-- In a never-cancelled chunk loop, the envelope persists happen exactly at
the chunk boundaries whose cumulative processed count is divisible by the
type's save-every parameter, and the persisted `progress` is that count. -/
theorem indexAllLoop_savePoints {V : Type} (t : IndexType) (p : IndexingParams)
    (indexDoc : FileRec → EmbeddingDatabases V → EmbeddingDatabases V)
    (cancel : Nat → Bool) (clock : Nat → Nat) (total : Nat)
    (hc : 1 ≤ p.chunkSize) (hcanF : ∀ j, cancel j = false) :
    ∀ (rest : List FileRec) (k indexed : Nat) (db : EmbeddingDatabases V),
      savedProgressValues t
        (indexAllLoop t p indexDoc cancel clock total rest k indexed db).2.1
        = (cumCountsFrom p.chunkSize indexed rest.length).filter
            (fun v => v % p.saveEvery == 0)
  | [], k, indexed, db => by
    rw [indexAllLoop, cumCountsFrom]
    simp [savedProgressValues, savedEnvelopes]
  | x :: xs, k, indexed, db => by
    rw [indexAllLoop]
    simp only [hcanF k, Bool.false_eq_true, if_false]
    have hlen : (List.take p.chunkSize (x :: xs)).length
        = min p.chunkSize (xs.length + 1) := by
      simp [List.length_take]
    have hrec : (xs.drop (p.chunkSize - 1)).length
        = (xs.length + 1) - min p.chunkSize (xs.length + 1) := by
      simp only [List.length_drop]
      omega
    have IH := indexAllLoop_savePoints t p indexDoc cancel clock total hc hcanF
      (xs.drop (p.chunkSize - 1)) (k + 1)
      (indexed + (List.take p.chunkSize (x :: xs)).length)
    rw [cumCountsFrom]
    simp only [List.length_cons]
    rw [if_neg (by omega : ¬ p.chunkSize = 0),
      if_neg (by omega : ¬ xs.length + 1 = 0)]
    by_cases hsv :
        ((indexed + (List.take p.chunkSize (x :: xs)).length) % p.saveEvery
          == 0) = true
    · simp only [hsv, if_true]
      rw [savedProgressValues_def]
      simp only [List.cons_append, List.nil_append,
        savedEnvelopes_cons_delay, savedEnvelopes_cons_update,
        savedEnvelopes_cons_save, savedEnvelopes_cons_trigger]
      rw [List.map_cons]
      rw [getIndexingState_saveDb, getIndexingState_set_patch_same]
      rw [← savedProgressValues_def, IH _]
      rw [List.filter_cons]
      rw [if_pos (by rw [← hlen]; exact hsv)]
      simp [hlen, hrec]
    · simp only [hsv, Bool.false_eq_true, if_false]
      rw [savedProgressValues_def]
      simp only [List.cons_append, List.nil_append,
        savedEnvelopes_cons_delay, savedEnvelopes_cons_update]
      rw [← savedProgressValues_def, IH _]
      rw [List.filter_cons]
      rw [if_neg (by simp only [← hlen]; simpa using hsv)]
      simp [hlen, hrec]
termination_by rest _ _ _ => rest.length
decreasing_by
  all_goals simp only [List.length_drop, List.length_cons]
  all_goals omega

/-- In a never-cancelled chunk loop over a collection whose `isIndexing` flag
is set, a progress notification carrying each chunk-boundary cumulative count
is emitted. -/
theorem indexAllLoop_notifications {V : Type} (t : IndexType)
    (p : IndexingParams)
    (indexDoc : FileRec → EmbeddingDatabases V → EmbeddingDatabases V)
    (cancel : Nat → Bool) (clock : Nat → Nat) (total : Nat)
    (hc : 1 ≤ p.chunkSize) (hcanF : ∀ j, cancel j = false)
    (hstates : ∀ f d, (indexDoc f d).indexingStates = d.indexingStates) :
    ∀ (rest : List FileRec) (k indexed : Nat) (db : EmbeddingDatabases V),
      (getIndexingState db t).isIndexing = true →
      ∀ v ∈ cumCountsFrom p.chunkSize indexed rest.length,
        IEvent.updateEv t true v total ∈
          (indexAllLoop t p indexDoc cancel clock total rest k indexed db).2.1
  | [], k, indexed, db, hflag => by
    rw [cumCountsFrom]
    simp
  | x :: xs, k, indexed, db, hflag => by
    have hfold : ((List.take p.chunkSize (x :: xs)).foldl
        (fun d f => indexDoc f d) db).indexingStates = db.indexingStates :=
      foldl_indexDoc_states indexDoc hstates _ db
    have hflag2 : (getIndexingState
        (setIndexingState
          ((List.take p.chunkSize (x :: xs)).foldl (fun d f => indexDoc f d) db) t
          { progress := some (indexed + (List.take p.chunkSize (x :: xs)).length),
            lastHeartbeat := some (clock k) }) t).isIndexing = true := by
      rw [getIndexingState_set_patch_same]
      rw [getIndexingState_congr _ db hfold]
      exact hflag
    intro v hv
    rw [indexAllLoop]
    simp only [hcanF k, Bool.false_eq_true, if_false]
    rw [cumCountsFrom] at hv
    simp only [List.length_cons] at hv ⊢
    rw [if_neg (by omega : ¬ p.chunkSize = 0),
      if_neg (by omega : ¬ xs.length + 1 = 0)] at hv
    have hlen : (List.take p.chunkSize (x :: xs)).length
        = min p.chunkSize (xs.length + 1) := by
      simp [List.length_take]
    have hrec : (xs.drop (p.chunkSize - 1)).length
        = (xs.length + 1) - min p.chunkSize (xs.length + 1) := by
      simp only [List.length_drop]
      omega
    rcases List.mem_cons.mp hv with hv1 | hv2
    · subst hv1
      rw [← hlen]
      refine List.mem_cons_of_mem _ ?_
      rw [hflag2]
      exact List.mem_cons_self _ _
    · rw [← hrec, ← hlen] at hv2
      by_cases hsv :
          ((indexed + (List.take p.chunkSize (x :: xs)).length) % p.saveEvery
            == 0) = true
      · simp only [hsv, if_true]
        have hflag3 : (getIndexingState (saveDb (setIndexingState
            ((List.take p.chunkSize (x :: xs)).foldl (fun d f => indexDoc f d) db)
            t
            { progress := some (indexed + (List.take p.chunkSize (x :: xs)).length),
              lastHeartbeat := some (clock k) }) (clock k)) t).isIndexing
            = true := by
          rw [getIndexingState_saveDb]
          exact hflag2
        have IH := indexAllLoop_notifications t p indexDoc cancel clock total
          hc hcanF hstates (xs.drop (p.chunkSize - 1)) (k + 1)
          (indexed + (List.take p.chunkSize (x :: xs)).length) _ hflag3 v hv2
        refine List.mem_cons_of_mem _ (List.mem_cons_of_mem _ ?_)
        exact List.mem_append_right _ IH
      · simp only [hsv, Bool.false_eq_true, if_false]
        have IH := indexAllLoop_notifications t p indexDoc cancel clock total
          hc hcanF hstates (xs.drop (p.chunkSize - 1)) (k + 1)
          (indexed + (List.take p.chunkSize (x :: xs)).length) _ hflag2 v hv2
        refine List.mem_cons_of_mem _ (List.mem_cons_of_mem _ ?_)
        exact List.mem_append_right _ IH
termination_by rest _ _ _ => rest.length
decreasing_by
  all_goals simp only [List.length_drop, List.length_cons]
  all_goals omega

/-- If the cancellation flag is observed set at some chunk the loop actually
reaches, the loop returns early with `cancelled = true`. -/
theorem indexAllLoop_cancelled {V : Type} (t : IndexType) (p : IndexingParams)
    (indexDoc : FileRec → EmbeddingDatabases V → EmbeddingDatabases V)
    (cancel : Nat → Bool) (clock : Nat → Nat) (total : Nat)
    (hc : 1 ≤ p.chunkSize) :
    ∀ (rest : List FileRec) (k indexed : Nat) (db : EmbeddingDatabases V),
      (∃ j, cancel (k + j) = true ∧ j * p.chunkSize < rest.length) →
      (indexAllLoop t p indexDoc cancel clock total rest k indexed db).2.2
        = true
  | [], k, indexed, db, h => by
    obtain ⟨j, _, hjlen⟩ := h
    simp at hjlen
  | x :: xs, k, indexed, db, h => by
    rw [indexAllLoop]
    by_cases hcan : cancel k = true
    · simp only [hcan, if_true]
    · simp only [hcan, Bool.false_eq_true, if_false]
      obtain ⟨j, hj, hjlen⟩ := h
      have hj0 : j ≠ 0 := by
        intro h0
        rw [h0, Nat.add_zero] at hj
        exact hcan hj
      have hmul : (j - 1) * p.chunkSize + p.chunkSize = j * p.chunkSize := by
        cases j with
        | zero => exact absurd rfl hj0
        | succ n => simp [Nat.succ_mul]
      have hcle : p.chunkSize ≤ j * p.chunkSize := by omega
      simp only [List.length_cons] at hjlen
      have hex : ∃ i, cancel (k + 1 + i) = true ∧
          i * p.chunkSize < (xs.drop (p.chunkSize - 1)).length := by
        refine ⟨j - 1, ?_, ?_⟩
        · have heq : k + 1 + (j - 1) = k + j := by omega
          rw [heq]
          exact hj
        · simp only [List.length_drop]
          omega
      by_cases hsv :
          ((indexed + (List.take p.chunkSize (x :: xs)).length) % p.saveEvery
            == 0) = true
      · simp only [hsv, if_true]
        exact indexAllLoop_cancelled t p indexDoc cancel clock total hc
          _ _ _ _ hex
      · simp only [hsv, Bool.false_eq_true, if_false]
        exact indexAllLoop_cancelled t p indexDoc cancel clock total hc
          _ _ _ _ hex
termination_by rest _ _ _ => rest.length
decreasing_by
  all_goals simp only [List.length_drop, List.length_cons]
  all_goals omega

theorem savedEnvelopes_nil {V : Type} :
    savedEnvelopes ([] : List (IEvent V)) = [] := rfl

/-!  ## C4 — global indexing lock -/

theorem isAnyIndexing_false_all {V : Type} (db : EmbeddingDatabases V)
    (h : isAnyIndexing db = false) (t' : IndexType) :
    (getIndexingState db t').isIndexing = false := by
  simp only [isAnyIndexing, Bool.or_eq_false_iff] at h
  cases t' with
  | titles => exact h.1.1
  | headings => exact h.1.2
  | content => exact h.2

theorem atMostOne_of_others_false {V : Type} (db : EmbeddingDatabases V)
    (t : IndexType)
    (h : ∀ t', t' ≠ t → (getIndexingState db t').isIndexing = false) :
    AtMostOneIndexing db := by
  cases t with
  | titles =>
    exact Or.inr (Or.inr ⟨h IndexType.headings (by simp),
      h IndexType.content (by simp)⟩)
  | headings =>
    exact Or.inr (Or.inl ⟨h IndexType.titles (by simp),
      h IndexType.content (by simp)⟩)
  | content =>
    exact Or.inl ⟨h IndexType.titles (by simp),
      h IndexType.headings (by simp)⟩

/-- C4: with any `isIndexing` flag already set, `indexSpecificType` returns
at once, leaving the database untouched and emitting nothing; and from a
state with at most one flag set, the final state and every envelope it
persists along the way again have at most one flag set (the mark step sets
exactly the chosen collection's flag, the loop never touches flags, and the
completion path clears it). -/
theorem C4_global_indexing_lock {V : Type} (t : IndexType)
    (embed : EmbedOracle V) (cancel : Nat → Bool) (clock : Nat → Nat)
    (files : List FileRec) (tStart tEnd : Nat) (db : EmbeddingDatabases V) :
    (isAnyIndexing db = true →
      indexSpecificType t embed cancel clock files tStart tEnd db = (db, [])) ∧
    (AtMostOneIndexing db →
      AtMostOneIndexing
        (indexSpecificType t embed cancel clock files tStart tEnd db).1 ∧
      ∀ env ∈ savedEnvelopes
        (indexSpecificType t embed cancel clock files tStart tEnd db).2,
        AtMostOneIndexing env) := by
  constructor
  · intro hbusy
    rw [indexSpecificType]
    simp [hbusy]
  · intro hone
    by_cases hbusy : isAnyIndexing db = true
    · rw [indexSpecificType]
      simp only [hbusy, if_true]
      exact ⟨hone, by simp [savedEnvelopes]⟩
    · have hquiet : isAnyIndexing db = false := by
        simpa using hbusy
      rw [indexSpecificType]
      simp only [hquiet, Bool.false_eq_true, if_false]
      have hI := indexAllLoop_invariant t (INDEXING_PARAMS t)
        (indexDocOf t embed) cancel clock files.length
        (fun d => ∀ t', t' ≠ t → (getIndexingState d t').isIndexing = false)
        (fun f d hd t' ht' => by
          rw [getIndexingState_congr _ d (indexDocOf_states t embed f d)]
          exact hd t' ht')
        (fun d a b hd t' ht' => by
          rw [getIndexingState_set_other d t t' _ ht']
          exact hd t' ht')
        (fun d n hd t' ht' => by
          rw [getIndexingState_saveDb]
          exact hd t' ht')
        files 0 0
        (saveDb (setIndexingState db t
          { isIndexing := some true, progress := some 0,
            total := some files.length, lastHeartbeat := some tStart }) tStart)
        (fun t' ht' => by
          rw [getIndexingState_saveDb, getIndexingState_set_other db t t' _ ht']
          exact isAnyIndexing_false_all db hquiet t')
      constructor
      · apply atMostOne_of_others_false _ t
        intro t' ht'
        rw [getIndexingState_set_other _ t t' _ ht']
        rw [getIndexingState_saveDb]
        rw [getIndexingState_set_other _ t t' _ ht']
        exact hI.1 t' ht'
      · intro env henv
        simp only [savedEnvelopes_cons_save, savedEnvelopes_append,
          savedEnvelopes_cons_trigger, savedEnvelopes_cons_settings,
          savedEnvelopes_nil] at henv
        rcases List.mem_cons.mp henv with h1 | h2
        · subst h1
          apply atMostOne_of_others_false _ t
          intro t' ht'
          rw [getIndexingState_saveDb, getIndexingState_set_other db t t' _ ht']
          exact isAnyIndexing_false_all db hquiet t'
        · rcases List.mem_append.mp h2 with h3 | h4
          · exact atMostOne_of_others_false _ t (hI.2 env h3)
          · rcases List.mem_cons.mp h4 with h5 | h6
            · subst h5
              apply atMostOne_of_others_false _ t
              intro t' ht'
              rw [getIndexingState_saveDb]
              rw [getIndexingState_set_other _ t t' _ ht']
              exact hI.1 t' ht'
            · simp at h6

/-- Witness for `C4_global_indexing_lock`: a busy database is returned
untouched, and from the empty database the lock invariant holds of the run's
final state. -/
theorem C4_global_indexing_lock_witness :
    (isAnyIndexing dbBusyNat = true ∧
     indexSpecificType IndexType.content (fun _ => some [1]) (fun _ => false)
       (fun _ => 7) files10 7 9 dbBusyNat = (dbBusyNat, [])) ∧
    (AtMostOneIndexing dbEmptyNat ∧
     AtMostOneIndexing
       (indexSpecificType IndexType.content (fun _ => some [1])
         (fun _ => false) (fun _ => 7) files10 7 9 dbEmptyNat).1) :=
  ⟨⟨rfl,
    (C4_global_indexing_lock IndexType.content (fun _ => some [1])
      (fun _ => false) (fun _ => 7) files10 7 9 dbBusyNat).1 rfl⟩,
   ⟨Or.inl ⟨rfl, rfl⟩,
    ((C4_global_indexing_lock IndexType.content (fun _ => some [1])
      (fun _ => false) (fun _ => 7) files10 7 9 dbEmptyNat).2
      (Or.inl ⟨rfl, rfl⟩)).1⟩⟩

/-!  ## C2 — content pacing -/

theorem cumCountsFrom_step (c acc n : Nat) (hc : ¬ c = 0) (hn : ¬ n = 0) :
    cumCountsFrom c acc n
      = (acc + min c n) :: cumCountsFrom c (acc + min c n) (n - min c n) := by
  rw [cumCountsFrom]
  rw [if_neg hc, if_neg hn]

theorem cumCountsFrom_zero (c acc : Nat) : cumCountsFrom c acc 0 = [] := by
  rw [cumCountsFrom]
  simp

/-- C2 counterexample: in a content pass over 10 documents, the chunk loop
persists the envelope only after the 10th document (`progress` 10) — there is
no persist after the 5th, although 5 is a multiple of the save-every
parameter and 5 < 10.  The claim's "after every 5 processed documents the
database envelope is persisted" is therefore false: with chunk size 2 the
`indexed % 5 === 0` check only fires at even boundaries. -/
theorem C2_counterexample_no_persist_at_five :
    (5 : Nat) % 5 = 0 ∧ 5 < files10.length ∧
    savedProgressValues IndexType.content
      (indexAllOfType IndexType.content (fun _ => some [1]) (fun _ => false)
        (fun _ => 1000) files10 dbEmptyNat).2.1 = [10] := by
  refine ⟨rfl, by decide, ?_⟩
  rw [indexAllOfType]
  rw [indexAllLoop_savePoints IndexType.content
    (INDEXING_PARAMS IndexType.content)
    (indexDocOf IndexType.content (fun _ => some [1])) (fun _ => false)
    (fun _ => 1000) files10.length (by decide) (fun _ => rfl)
    files10 0 0 dbEmptyNat]
  have hlen : files10.length = 10 := rfl
  rw [hlen]
  have e1 : cumCountsFrom 2 0 10 = 2 :: cumCountsFrom 2 2 8 := by
    rw [cumCountsFrom_step _ _ _ (by decide) (by decide)]
    norm_num
  have e2 : cumCountsFrom 2 2 8 = 4 :: cumCountsFrom 2 4 6 := by
    rw [cumCountsFrom_step _ _ _ (by decide) (by decide)]
    norm_num
  have e3 : cumCountsFrom 2 4 6 = 6 :: cumCountsFrom 2 6 4 := by
    rw [cumCountsFrom_step _ _ _ (by decide) (by decide)]
    norm_num
  have e4 : cumCountsFrom 2 6 4 = 8 :: cumCountsFrom 2 8 2 := by
    rw [cumCountsFrom_step _ _ _ (by decide) (by decide)]
    norm_num
  have e5 : cumCountsFrom 2 8 2 = 10 :: cumCountsFrom 2 10 0 := by
    rw [cumCountsFrom_step _ _ _ (by decide) (by decide)]
    norm_num
  have hcc : cumCountsFrom (INDEXING_PARAMS IndexType.content).chunkSize 0 10
      = [2, 4, 6, 8, 10] := by
    show cumCountsFrom 2 0 10 = [2, 4, 6, 8, 10]
    rw [e1, e2, e3, e4, e5, cumCountsFrom_zero]
  rw [hcc]
  rfl

/-- C2 (amended): the content pacing parameters are chunk size 2,
inter-chunk delay 50 ms, save-every 5; in an uncancelled content pass the
envelope is persisted (with `progress` equal to the cumulative processed
count) exactly after the chunks whose cumulative count is divisible by 5 —
with chunk size 2 that is every 10 documents, or an odd final count — and a
progress notification is emitted after every chunk. -/
theorem C2_content_pacing {V : Type} (embed : EmbedOracle V)
    (cancel : Nat → Bool) (clock : Nat → Nat) (files : List FileRec)
    (db : EmbeddingDatabases V) (hcanF : ∀ j, cancel j = false) :
    INDEXING_PARAMS IndexType.content
      = { chunkSize := 2, delayMs := 50, saveEvery := 5 } ∧
    savedProgressValues IndexType.content
      (indexAllOfType IndexType.content embed cancel clock files db).2.1
      = (cumCounts 2 files.length).filter (fun v => v % 5 == 0) ∧
    ((getIndexingState db IndexType.content).isIndexing = true →
      ∀ v ∈ cumCounts 2 files.length,
        IEvent.updateEv IndexType.content true v files.length ∈
          (indexAllOfType IndexType.content embed cancel clock files db).2.1) := by
  refine ⟨rfl, ?_, ?_⟩
  · rw [indexAllOfType]
    exact indexAllLoop_savePoints IndexType.content
      (INDEXING_PARAMS IndexType.content) (indexDocOf IndexType.content embed)
      cancel clock files.length (by decide) hcanF files 0 0 db
  · intro hflag v hv
    rw [indexAllOfType]
    exact indexAllLoop_notifications IndexType.content
      (INDEXING_PARAMS IndexType.content) (indexDocOf IndexType.content embed)
      cancel clock files.length (by decide) hcanF
      (indexDocOf_states IndexType.content embed) files 0 0 db hflag v hv

/-- Witness for `C2_content_pacing` on the 10-file vault. -/
theorem C2_content_pacing_witness :
    (∀ j, (fun _ => false : Nat → Bool) j = false) ∧
    savedProgressValues IndexType.content
      (indexAllOfType IndexType.content (fun _ => some [(1 : Nat)])
        (fun _ => false) (fun _ => 3) files10 dbEmptyNat).2.1
      = (cumCounts 2 files10.length).filter (fun v => v % 5 == 0) :=
  ⟨fun _ => rfl,
   (C2_content_pacing (fun _ => some [1]) (fun _ => false) (fun _ => 3)
     files10 dbEmptyNat (fun _ => rfl)).2.1⟩

/-!  ## C10 — cancelled pass completion -/

theorem getLast?_cons_append_singleton {α : Type} (a : α) (l : List α)
    (b : α) : (a :: (l ++ [b])).getLast? = some b := by
  rw [← List.cons_append]
  exact List.getLast?_concat _

/-- C10: if cancellation is requested during an `indexSpecificType` pass
(observed at a chunk the loop reaches), the chunk loop returns early, yet the
pass still runs its normal completion path: the collection's flag ends false
with `lastIndexed = tEnd` and progress/total zeroed in memory, the LAST
persisted envelope records `isIndexing = false` with `lastIndexed = tEnd`
exactly like a completed pass, and a completion notification with
`isActive = false` is emitted. -/
theorem C10_cancelled_pass_completes {V : Type} (t : IndexType)
    (embed : EmbedOracle V) (cancel : Nat → Bool) (clock : Nat → Nat)
    (files : List FileRec) (tStart tEnd : Nat) (db : EmbeddingDatabases V)
    (hquiet : isAnyIndexing db = false)
    (hcan : ∃ j, cancel j = true ∧
      j * (INDEXING_PARAMS t).chunkSize < files.length) :
    (indexAllOfType t embed cancel clock files
      (saveDb (setIndexingState db t
        { isIndexing := some true, progress := some 0,
          total := some files.length, lastHeartbeat := some tStart })
        tStart)).2.2 = true ∧
    (getIndexingState
      (indexSpecificType t embed cancel clock files tStart tEnd db).1
      t).isIndexing = false ∧
    (getIndexingState
      (indexSpecificType t embed cancel clock files tStart tEnd db).1
      t).lastIndexed = tEnd ∧
    (getIndexingState
      (indexSpecificType t embed cancel clock files tStart tEnd db).1
      t).progress = 0 ∧
    (getIndexingState
      (indexSpecificType t embed cancel clock files tStart tEnd db).1
      t).total = 0 ∧
    (∃ env, (savedEnvelopes
        (indexSpecificType t embed cancel clock files tStart tEnd db).2).getLast?
        = some env ∧
      (getIndexingState env t).isIndexing = false ∧
      (getIndexingState env t).lastIndexed = tEnd) ∧
    (∃ pr tot, IEvent.updateEv t false pr tot ∈
      (indexSpecificType t embed cancel clock files tStart tEnd db).2) := by
  have hchunk : 1 ≤ (INDEXING_PARAMS t).chunkSize := by cases t <;> decide
  constructor
  · rw [indexAllOfType]
    apply indexAllLoop_cancelled t (INDEXING_PARAMS t) (indexDocOf t embed)
      cancel clock files.length hchunk
    obtain ⟨j, hj, hjl⟩ := hcan
    exact ⟨j, by simpa using hj, hjl⟩
  · rw [indexSpecificType]
    simp only [hquiet, Bool.false_eq_true, if_false]
    refine ⟨?_, ?_, ?_, ?_, ?_, ?_⟩
    · rw [getIndexingState_set_self, getIndexingState_saveDb,
        getIndexingState_set_self]
      simp [applyPatch]
    · rw [getIndexingState_set_self, getIndexingState_saveDb,
        getIndexingState_set_self]
      simp [applyPatch]
    · rw [getIndexingState_set_self]
      simp [applyPatch]
    · rw [getIndexingState_set_self]
      simp [applyPatch]
    · refine ⟨saveDb (setIndexingState
        (indexAllOfType t embed cancel clock files
          (saveDb (setIndexingState db t
            { isIndexing := some true, progress := some 0,
              total := some files.length, lastHeartbeat := some tStart })
            tStart)).1 t
        { isIndexing := some false, lastIndexed := some tEnd }) tEnd, ?_, ?_, ?_⟩
      · simp only [savedEnvelopes_cons_save, savedEnvelopes_append,
          savedEnvelopes_cons_trigger, savedEnvelopes_cons_settings,
          savedEnvelopes_nil]
        exact getLast?_cons_append_singleton _ _ _
      · rw [getIndexingState_saveDb, getIndexingState_set_self]
        simp [applyPatch]
      · rw [getIndexingState_saveDb, getIndexingState_set_self]
        simp [applyPatch]
    · refine ⟨(getIndexingState (saveDb (setIndexingState
        (indexAllOfType t embed cancel clock files
          (saveDb (setIndexingState db t
            { isIndexing := some true, progress := some 0,
              total := some files.length, lastHeartbeat := some tStart })
            tStart)).1 t
        { isIndexing := some false, lastIndexed := some tEnd }) tEnd) t).progress,
        (getIndexingState (saveDb (setIndexingState
        (indexAllOfType t embed cancel clock files
          (saveDb (setIndexingState db t
            { isIndexing := some true, progress := some 0,
              total := some files.length, lastHeartbeat := some tStart })
            tStart)).1 t
        { isIndexing := some false, lastIndexed := some tEnd }) tEnd) t).total, ?_⟩
      have htrig : triggerIndexingUpdateEv (saveDb (setIndexingState
          (indexAllOfType t embed cancel clock files
            (saveDb (setIndexingState db t
              { isIndexing := some true, progress := some 0,
                total := some files.length, lastHeartbeat := some tStart })
              tStart)).1 t
          { isIndexing := some false, lastIndexed := some tEnd }) tEnd) t
          none none
          = IEvent.updateEv t false
            (getIndexingState (saveDb (setIndexingState
              (indexAllOfType t embed cancel clock files
                (saveDb (setIndexingState db t
                  { isIndexing := some true, progress := some 0,
                    total := some files.length, lastHeartbeat := some tStart })
                  tStart)).1 t
              { isIndexing := some false, lastIndexed := some tEnd }) tEnd)
              t).progress
            (getIndexingState (saveDb (setIndexingState
              (indexAllOfType t embed cancel clock files
                (saveDb (setIndexingState db t
                  { isIndexing := some true, progress := some 0,
                    total := some files.length, lastHeartbeat := some tStart })
                  tStart)).1 t
              { isIndexing := some false, lastIndexed := some tEnd }) tEnd)
              t).total := by
        rw [triggerIndexingUpdateEv]
        rw [getIndexingState_saveDb, getIndexingState_set_self]
        simp [applyPatch]
      rw [← htrig]
      refine List.mem_cons_of_mem _ (List.mem_append_right _ ?_)
      simp

/-- Witness for `C10_cancelled_pass_completes`: a content pass over the
10-file vault cancelled at chunk 1. -/
theorem C10_cancelled_pass_completes_witness :
    isAnyIndexing dbEmptyNat = false ∧
    (getIndexingState
      (indexSpecificType IndexType.content (fun _ => some [(1 : Nat)])
        (fun k => k == 1) (fun _ => 50) files10 100 200 dbEmptyNat).1
      IndexType.content).isIndexing = false ∧
    (getIndexingState
      (indexSpecificType IndexType.content (fun _ => some [(1 : Nat)])
        (fun k => k == 1) (fun _ => 50) files10 100 200 dbEmptyNat).1
      IndexType.content).lastIndexed = 200 :=
  ⟨rfl,
   (C10_cancelled_pass_completes IndexType.content (fun _ => some [(1 : Nat)])
     (fun k => k == 1) (fun _ => 50) files10 100 200 dbEmptyNat rfl
     ⟨1, rfl, by decide⟩).2.1,
   (C10_cancelled_pass_completes IndexType.content (fun _ => some [(1 : Nat)])
     (fun k => k == 1) (fun _ => 50) files10 100 200 dbEmptyNat rfl
     ⟨1, rfl, by decide⟩).2.2.1⟩

/-!  ## C6 — cosine similarity -/

theorem sumSq_nonneg (l : List ℝ) : 0 ≤ sumSq l := by
  induction l with
  | nil => simp [sumSq, dotList]
  | cons x xs ih =>
    have : sumSq (x :: xs) = x * x + sumSq xs := rfl
    rw [this]
    nlinarith [sq_nonneg x]

theorem dotList_sq_le (a : List ℝ) : ∀ (b : List ℝ),
    (dotList a b) ^ 2 ≤ sumSq a * sumSq b := by
  induction a with
  | nil =>
    intro b
    simp [dotList, sumSq]
  | cons x xs ih =>
    intro b
    cases b with
    | nil =>
      simp only [dotList]
      have ha := sumSq_nonneg (x :: xs)
      have hb : sumSq ([] : List ℝ) = 0 := rfl
      simp [hb]
    | cons y ys =>
      have hd := ih ys
      have hsa := sumSq_nonneg xs
      have hsb := sumSq_nonneg ys
      have e1 : dotList (x :: xs) (y :: ys) = x * y + dotList xs ys := rfl
      have e2 : sumSq (x :: xs) = x * x + sumSq xs := rfl
      have e3 : sumSq (y :: ys) = y * y + sumSq ys := rfl
      rw [e1, e2, e3]
      set d := dotList xs ys with hdd
      set sa := sumSq xs with hsa'
      set sb := sumSq ys with hsb'
      have hQ : 0 ≤ sa * sb - d ^ 2 := by nlinarith
      rcases eq_or_lt_of_le hsb with hsb0 | hsbpos
      · have hd0 : d = 0 := by nlinarith [sq_nonneg d]
        rw [hd0]
        nlinarith [mul_nonneg hsa (sq_nonneg y)]
      · nlinarith [sq_nonneg (x * sb - y * d), mul_nonneg (sq_nonneg y) hQ,
          mul_nonneg (le_of_lt hsbpos) hQ, sq_nonneg (x * y - d),
          sq_nonneg (x * y + d)]

/-- C6: on equal-length vectors `cosineSimilarity` succeeds and returns the
dot product divided by the product of the two L2 norms (with the `0`
fallback); the result always lies in `[-1, 1]`, and it is exactly `0`
whenever either vector's norm is zero. -/
theorem C6_cosine_bounds (a b : List ℝ) (hlen : a.length = b.length) :
    ∃ r, cosineSimilarity a b = Except.ok r ∧
      r = (if Real.sqrt (sumSq a) * Real.sqrt (sumSq b) = 0 then 0
           else dotList a b / (Real.sqrt (sumSq a) * Real.sqrt (sumSq b))) ∧
      -1 ≤ r ∧ r ≤ 1 ∧
      ((sumSq a = 0 ∨ sumSq b = 0) → r = 0) := by
  refine ⟨_, by rw [cosineSimilarity]; rw [if_neg (by simp [hlen])], rfl,
    ?_, ?_, ?_⟩
  · -- -1 ≤ r
    by_cases hden : Real.sqrt (sumSq a) * Real.sqrt (sumSq b) = 0
    · simp [hden]
    · rw [if_neg hden]
      have hnn : 0 ≤ Real.sqrt (sumSq a) * Real.sqrt (sumSq b) :=
        mul_nonneg (Real.sqrt_nonneg _) (Real.sqrt_nonneg _)
      have hpos : 0 < Real.sqrt (sumSq a) * Real.sqrt (sumSq b) :=
        lt_of_le_of_ne hnn (Ne.symm hden)
      have habs : |dotList a b| ≤ Real.sqrt (sumSq a) * Real.sqrt (sumSq b) := by
        have h1 : |dotList a b| = Real.sqrt ((dotList a b) ^ 2) :=
          (Real.sqrt_sq_eq_abs _).symm
        rw [h1]
        have h2 : Real.sqrt ((dotList a b) ^ 2)
            ≤ Real.sqrt (sumSq a * sumSq b) :=
          Real.sqrt_le_sqrt (dotList_sq_le a b)
        calc Real.sqrt ((dotList a b) ^ 2)
            ≤ Real.sqrt (sumSq a * sumSq b) := h2
          _ = Real.sqrt (sumSq a) * Real.sqrt (sumSq b) :=
              Real.sqrt_mul (sumSq_nonneg a) _
      have := (abs_le.mp (by
        rw [abs_div]
        rw [abs_of_nonneg hnn]
        exact div_le_one_of_le habs hnn : |dotList a b /
          (Real.sqrt (sumSq a) * Real.sqrt (sumSq b))| ≤ 1))
      exact this.1
  · by_cases hden : Real.sqrt (sumSq a) * Real.sqrt (sumSq b) = 0
    · simp [hden]
    · rw [if_neg hden]
      have hnn : 0 ≤ Real.sqrt (sumSq a) * Real.sqrt (sumSq b) :=
        mul_nonneg (Real.sqrt_nonneg _) (Real.sqrt_nonneg _)
      have habs : |dotList a b| ≤ Real.sqrt (sumSq a) * Real.sqrt (sumSq b) := by
        have h1 : |dotList a b| = Real.sqrt ((dotList a b) ^ 2) :=
          (Real.sqrt_sq_eq_abs _).symm
        rw [h1]
        calc Real.sqrt ((dotList a b) ^ 2)
            ≤ Real.sqrt (sumSq a * sumSq b) :=
              Real.sqrt_le_sqrt (dotList_sq_le a b)
          _ = Real.sqrt (sumSq a) * Real.sqrt (sumSq b) :=
              Real.sqrt_mul (sumSq_nonneg a) _
      have := (abs_le.mp (by
        rw [abs_div]
        rw [abs_of_nonneg hnn]
        exact div_le_one_of_le habs hnn : |dotList a b /
          (Real.sqrt (sumSq a) * Real.sqrt (sumSq b))| ≤ 1))
      exact this.2
  · intro h0
    have hden : Real.sqrt (sumSq a) * Real.sqrt (sumSq b) = 0 := by
      rcases h0 with h | h <;> simp [h]
    simp [hden]

/-- Witness for `C6_cosine_bounds` on the orthogonal pair `[1,0]`, `[0,1]`. -/
theorem C6_cosine_bounds_witness :
    ([1, 0] : List ℝ).length = ([0, 1] : List ℝ).length ∧
    ∃ r, cosineSimilarity [1, 0] [0, 1] = Except.ok r ∧
      r = (if Real.sqrt (sumSq [1, 0]) * Real.sqrt (sumSq [0, 1]) = 0 then 0
           else dotList [1, 0] [0, 1] /
             (Real.sqrt (sumSq [1, 0]) * Real.sqrt (sumSq [0, 1]))) ∧
      -1 ≤ r ∧ r ≤ 1 ∧
      ((sumSq [1, 0] = 0 ∨ sumSq [0, 1] = 0) → r = 0) :=
  ⟨rfl, C6_cosine_bounds [1, 0] [0, 1] rfl⟩

/-!  ## C5 machinery -/

theorem cosineSimilarity_ok (q v : List ℝ) (h : q.length = v.length) :
    cosineSimilarity q v = Except.ok (cosVal q v) := by
  rw [cosineSimilarity, if_neg (by simp [h])]
  rfl

theorem collectTitles_ok (q : List ℝ) (ex : Option String) :
    ∀ (m : StrMap (TitleEmbedding ℝ)),
      (∀ e ∈ m, (e.2).embedding.length = q.length) →
      collectTitles q ex m = Except.ok (titleResultsList q ex m)
  | [] => fun _ => rfl
  | (k, v) :: rest => fun h => by
    have hres := collectTitles_ok q ex rest
      (fun e he => h e (List.mem_cons_of_mem _ he))
    rw [collectTitles]
    by_cases hex : excludedPath ex k = true
    · simp only [hex, if_true]
      rw [hres]
      simp [titleResultsList, List.filterMap_cons, hex]
    · simp only [hex, Bool.false_eq_true, if_false]
      rw [cosineSimilarity_ok q v.embedding
        (h (k, v) (List.mem_cons_self _ _)).symm]
      rw [hres]
      simp [titleResultsList, List.filterMap_cons, hex]

theorem collectHeadings_ok (q : List ℝ) (ex : Option String) :
    ∀ (m : StrMap (HeadingEmbedding ℝ)),
      (∀ e ∈ m, (e.2).embedding.length = q.length) →
      collectHeadings q ex m = Except.ok (headingResultsList q ex m)
  | [] => fun _ => rfl
  | (k, v) :: rest => fun h => by
    have hres := collectHeadings_ok q ex rest
      (fun e he => h e (List.mem_cons_of_mem _ he))
    rw [collectHeadings]
    by_cases hex : excludedPath ex k = true
    · simp only [hex, if_true]
      rw [hres]
      simp [headingResultsList, List.filterMap_cons, hex]
    · simp only [hex, Bool.false_eq_true, if_false]
      rw [cosineSimilarity_ok q v.embedding
        (h (k, v) (List.mem_cons_self _ _)).symm]
      rw [hres]
      simp [headingResultsList, List.filterMap_cons, hex]

theorem collectContent_ok (q : List ℝ) (ex : Option String) :
    ∀ (m : StrMap (ContentEmbedding ℝ)),
      (∀ e ∈ m, (e.2).embedding.length = q.length) →
      collectContent q ex m = Except.ok (contentResultsList q ex m)
  | [] => fun _ => rfl
  | (k, v) :: rest => fun h => by
    have hres := collectContent_ok q ex rest
      (fun e he => h e (List.mem_cons_of_mem _ he))
    rw [collectContent]
    by_cases hex : excludedPath ex k = true
    · simp only [hex, if_true]
      rw [hres]
      simp [contentResultsList, List.filterMap_cons, hex]
    · simp only [hex, Bool.false_eq_true, if_false]
      rw [cosineSimilarity_ok q v.embedding
        (h (k, v) (List.mem_cons_self _ _)).symm]
      rw [hres]
      simp [contentResultsList, List.filterMap_cons, hex]

theorem titleResults_path_mem (q : List ℝ) (ex : Option String) :
    ∀ (m : StrMap (TitleEmbedding ℝ)) (r : SearchResult),
      r ∈ titleResultsList q ex m → r.path ∈ m.map Prod.fst
  | [], r => by simp [titleResultsList]
  | (k, v) :: rest, r => by
    intro hr
    simp only [titleResultsList, List.filterMap_cons] at hr
    by_cases hex : excludedPath ex k = true
    · simp only [hex, if_true] at hr
      exact List.mem_cons_of_mem _ (titleResults_path_mem q ex rest r hr)
    · simp only [hex, Bool.false_eq_true, if_false] at hr
      rcases List.mem_cons.mp hr with h1 | h2
      · subst h1
        simp
      · exact List.mem_cons_of_mem _ (titleResults_path_mem q ex rest r h2)

theorem filter_titleResults_nil (q : List ℝ) (ex : Option String)
    (m : StrMap (TitleEmbedding ℝ)) (p : String)
    (hp : p ∉ m.map Prod.fst) :
    (titleResultsList q ex m).filter (fun r => r.path == p) = [] := by
  rw [List.filter_eq_nil]
  intro r hr hc
  have : r.path = p := by simpa using hc
  exact hp (this ▸ titleResults_path_mem q ex m r hr)

theorem titleResultsList_cons_ex (q : List ℝ) (ex : Option String)
    (k : String) (v : TitleEmbedding ℝ) (rest : StrMap (TitleEmbedding ℝ))
    (hex : excludedPath ex k = true) :
    titleResultsList q ex ((k, v) :: rest) = titleResultsList q ex rest := by
  simp only [titleResultsList, List.filterMap_cons, hex, if_true]

theorem titleResultsList_cons_keep (q : List ℝ) (ex : Option String)
    (k : String) (v : TitleEmbedding ℝ) (rest : StrMap (TitleEmbedding ℝ))
    (hex : ¬ excludedPath ex k = true) :
    titleResultsList q ex ((k, v) :: rest)
      = { path := k, score := cosVal q v.embedding, title := v.title,
          excerpt := v.title, source := Source.title }
        :: titleResultsList q ex rest := by
  simp only [titleResultsList, List.filterMap_cons, hex, Bool.false_eq_true,
    if_false]

theorem filter_titleResultsList (q : List ℝ) (ex : Option String) :
    ∀ (m : StrMap (TitleEmbedding ℝ)), (m.map Prod.fst).Nodup → ∀ p,
      ((titleResultsList q ex m).filter (fun r => r.path == p)).map
        (fun r => (r.score, r.source))
      = (if !(excludedPath ex p) then
          (match StrMap.get? m p with
           | some data => [(cosVal q data.embedding, Source.title)]
           | none => [])
         else [])
  | [] => by
    intro _ p
    cases hpe : excludedPath ex p <;>
      simp [titleResultsList, StrMap.get?, hpe]
  | (k, v) :: rest => by
    intro hnd p
    simp only [List.map_cons, List.nodup_cons] at hnd
    have IH := filter_titleResultsList q ex rest hnd.2 p
    by_cases hk : k = p
    · subst hk
      have hget : StrMap.get? ((k, v) :: rest) k = some v := by
        simp [StrMap.get?]
      have hrest : (titleResultsList q ex rest).filter
          (fun r => r.path == k) = [] :=
        filter_titleResults_nil q ex rest k hnd.1
      rw [hget]
      by_cases hex : excludedPath ex k = true
      · rw [titleResultsList_cons_ex q ex k v rest hex, hrest]
        simp [hex]
      · rw [titleResultsList_cons_keep q ex k v rest hex]
        rw [List.filter_cons]
        rw [if_pos (by simp)]
        rw [hrest]
        have hex' : excludedPath ex k = false := by simpa using hex
        simp [hex']
    · have hget : StrMap.get? ((k, v) :: rest) p = StrMap.get? rest p := by
        simp [StrMap.get?, List.find?_cons, hk]
      rw [hget]
      by_cases hex : excludedPath ex k = true
      · rw [titleResultsList_cons_ex q ex k v rest hex]
        exact IH
      · rw [titleResultsList_cons_keep q ex k v rest hex]
        rw [List.filter_cons]
        rw [if_neg (by simpa using hk)]
        exact IH

theorem headingResults_path_mem (q : List ℝ) (ex : Option String) :
    ∀ (m : StrMap (HeadingEmbedding ℝ)) (r : SearchResult),
      r ∈ headingResultsList q ex m → r.path ∈ m.map Prod.fst
  | [], r => by simp [headingResultsList]
  | (k, v) :: rest, r => by
    intro hr
    simp only [headingResultsList, List.filterMap_cons] at hr
    by_cases hex : excludedPath ex k = true
    · simp only [hex, if_true] at hr
      exact List.mem_cons_of_mem _ (headingResults_path_mem q ex rest r hr)
    · simp only [hex, Bool.false_eq_true, if_false] at hr
      rcases List.mem_cons.mp hr with h1 | h2
      · subst h1
        simp
      · exact List.mem_cons_of_mem _ (headingResults_path_mem q ex rest r h2)

theorem filter_headingResults_nil (q : List ℝ) (ex : Option String)
    (m : StrMap (HeadingEmbedding ℝ)) (p : String)
    (hp : p ∉ m.map Prod.fst) :
    (headingResultsList q ex m).filter (fun r => r.path == p) = [] := by
  rw [List.filter_eq_nil]
  intro r hr hc
  have : r.path = p := by simpa using hc
  exact hp (this ▸ headingResults_path_mem q ex m r hr)

theorem headingResultsList_cons_ex (q : List ℝ) (ex : Option String)
    (k : String) (v : HeadingEmbedding ℝ) (rest : StrMap (HeadingEmbedding ℝ))
    (hex : excludedPath ex k = true) :
    headingResultsList q ex ((k, v) :: rest) = headingResultsList q ex rest := by
  simp only [headingResultsList, List.filterMap_cons, hex, if_true]

theorem headingResultsList_cons_keep (q : List ℝ) (ex : Option String)
    (k : String) (v : HeadingEmbedding ℝ) (rest : StrMap (HeadingEmbedding ℝ))
    (hex : ¬ excludedPath ex k = true) :
    headingResultsList q ex ((k, v) :: rest)
      = { path := k, score := cosVal q v.embedding, title := getFileTitle k,
          excerpt := String.intercalate " • " v.headings,
          source := Source.heading }
        :: headingResultsList q ex rest := by
  simp only [headingResultsList, List.filterMap_cons, hex, Bool.false_eq_true,
    if_false]

theorem filter_headingResultsList (q : List ℝ) (ex : Option String) :
    ∀ (m : StrMap (HeadingEmbedding ℝ)), (m.map Prod.fst).Nodup → ∀ p,
      ((headingResultsList q ex m).filter (fun r => r.path == p)).map
        (fun r => (r.score, r.source))
      = (if !(excludedPath ex p) then
          (match StrMap.get? m p with
           | some data => [(cosVal q data.embedding, Source.heading)]
           | none => [])
         else [])
  | [] => by
    intro _ p
    cases hpe : excludedPath ex p <;>
      simp [headingResultsList, StrMap.get?, hpe]
  | (k, v) :: rest => by
    intro hnd p
    simp only [List.map_cons, List.nodup_cons] at hnd
    have IH := filter_headingResultsList q ex rest hnd.2 p
    by_cases hk : k = p
    · subst hk
      have hget : StrMap.get? ((k, v) :: rest) k = some v := by
        simp [StrMap.get?]
      have hrest : (headingResultsList q ex rest).filter
          (fun r => r.path == k) = [] :=
        filter_headingResults_nil q ex rest k hnd.1
      rw [hget]
      by_cases hex : excludedPath ex k = true
      · rw [headingResultsList_cons_ex q ex k v rest hex, hrest]
        simp [hex]
      · rw [headingResultsList_cons_keep q ex k v rest hex]
        rw [List.filter_cons]
        rw [if_pos (by simp)]
        rw [hrest]
        have hex' : excludedPath ex k = false := by simpa using hex
        simp [hex']
    · have hget : StrMap.get? ((k, v) :: rest) p = StrMap.get? rest p := by
        simp [StrMap.get?, List.find?_cons, hk]
      rw [hget]
      by_cases hex : excludedPath ex k = true
      · rw [headingResultsList_cons_ex q ex k v rest hex]
        exact IH
      · rw [headingResultsList_cons_keep q ex k v rest hex]
        rw [List.filter_cons]
        rw [if_neg (by simpa using hk)]
        exact IH

theorem contentResults_path_mem (q : List ℝ) (ex : Option String) :
    ∀ (m : StrMap (ContentEmbedding ℝ)) (r : SearchResult),
      r ∈ contentResultsList q ex m → r.path ∈ m.map Prod.fst
  | [], r => by simp [contentResultsList]
  | (k, v) :: rest, r => by
    intro hr
    simp only [contentResultsList, List.filterMap_cons] at hr
    by_cases hex : excludedPath ex k = true
    · simp only [hex, if_true] at hr
      exact List.mem_cons_of_mem _ (contentResults_path_mem q ex rest r hr)
    · simp only [hex, Bool.false_eq_true, if_false] at hr
      rcases List.mem_cons.mp hr with h1 | h2
      · subst h1
        simp
      · exact List.mem_cons_of_mem _ (contentResults_path_mem q ex rest r h2)

theorem filter_contentResults_nil (q : List ℝ) (ex : Option String)
    (m : StrMap (ContentEmbedding ℝ)) (p : String)
    (hp : p ∉ m.map Prod.fst) :
    (contentResultsList q ex m).filter (fun r => r.path == p) = [] := by
  rw [List.filter_eq_nil]
  intro r hr hc
  have : r.path = p := by simpa using hc
  exact hp (this ▸ contentResults_path_mem q ex m r hr)

theorem contentResultsList_cons_ex (q : List ℝ) (ex : Option String)
    (k : String) (v : ContentEmbedding ℝ) (rest : StrMap (ContentEmbedding ℝ))
    (hex : excludedPath ex k = true) :
    contentResultsList q ex ((k, v) :: rest) = contentResultsList q ex rest := by
  simp only [contentResultsList, List.filterMap_cons, hex, if_true]

theorem contentResultsList_cons_keep (q : List ℝ) (ex : Option String)
    (k : String) (v : ContentEmbedding ℝ) (rest : StrMap (ContentEmbedding ℝ))
    (hex : ¬ excludedPath ex k = true) :
    contentResultsList q ex ((k, v) :: rest)
      = { path := k, score := cosVal q v.embedding, title := getFileTitle k,
          excerpt := v.excerpt, source := Source.content }
        :: contentResultsList q ex rest := by
  simp only [contentResultsList, List.filterMap_cons, hex, Bool.false_eq_true,
    if_false]

theorem filter_contentResultsList (q : List ℝ) (ex : Option String) :
    ∀ (m : StrMap (ContentEmbedding ℝ)), (m.map Prod.fst).Nodup → ∀ p,
      ((contentResultsList q ex m).filter (fun r => r.path == p)).map
        (fun r => (r.score, r.source))
      = (if !(excludedPath ex p) then
          (match StrMap.get? m p with
           | some data => [(cosVal q data.embedding, Source.content)]
           | none => [])
         else [])
  | [] => by
    intro _ p
    cases hpe : excludedPath ex p <;>
      simp [contentResultsList, StrMap.get?, hpe]
  | (k, v) :: rest => by
    intro hnd p
    simp only [List.map_cons, List.nodup_cons] at hnd
    have IH := filter_contentResultsList q ex rest hnd.2 p
    by_cases hk : k = p
    · subst hk
      have hget : StrMap.get? ((k, v) :: rest) k = some v := by
        simp [StrMap.get?]
      have hrest : (contentResultsList q ex rest).filter
          (fun r => r.path == k) = [] :=
        filter_contentResults_nil q ex rest k hnd.1
      rw [hget]
      by_cases hex : excludedPath ex k = true
      · rw [contentResultsList_cons_ex q ex k v rest hex, hrest]
        simp [hex]
      · rw [contentResultsList_cons_keep q ex k v rest hex]
        rw [List.filter_cons]
        rw [if_pos (by simp)]
        rw [hrest]
        have hex' : excludedPath ex k = false := by simpa using hex
        simp [hex']
    · have hget : StrMap.get? ((k, v) :: rest) p = StrMap.get? rest p := by
        simp [StrMap.get?, List.find?_cons, hk]
      rw [hget]
      by_cases hex : excludedPath ex k = true
      · rw [contentResultsList_cons_ex q ex k v rest hex]
        exact IH
      · rw [contentResultsList_cons_keep q ex k v rest hex]
        rw [List.filter_cons]
        rw [if_neg (by simpa using hk)]
        exact IH

theorem StrMap.get?_eq_none_iff {α : Type} :
    ∀ (m : StrMap α) (k : String),
      StrMap.get? m k = none ↔ k ∉ m.map Prod.fst
  | [], k => by simp [StrMap.get?]
  | (k', v') :: rest, k => by
    by_cases hk : k' = k
    · subst hk
      simp [StrMap.get?]
    · have : StrMap.get? ((k', v') :: rest) k = StrMap.get? rest k := by
        simp [StrMap.get?, List.find?_cons, hk]
      rw [this]
      rw [StrMap.get?_eq_none_iff rest k]
      simp [hk, Ne.symm hk]

theorem StrMap.get?_some_mem {α : Type} :
    ∀ (m : StrMap α) (k : String) (v : α),
      StrMap.get? m k = some v → (k, v) ∈ m
  | [], k, v => by simp [StrMap.get?]
  | (k', v') :: rest, k, v => by
    intro h
    by_cases hk : k' = k
    · subst hk
      have hg : StrMap.get? ((k', v') :: rest) k' = some v' := by
        simp [StrMap.get?]
      rw [hg] at h
      have hv : v' = v := Option.some.injEq _ _ ▸ h
      rw [← hv]
      exact List.mem_cons_self _ _
    · have heq : StrMap.get? ((k', v') :: rest) k = StrMap.get? rest k := by
        simp [StrMap.get?, List.find?_cons, hk]
      rw [heq] at h
      exact List.mem_cons_of_mem _ (StrMap.get?_some_mem rest k v h)

theorem StrMap.get?_of_mem_nodup {α : Type} :
    ∀ (m : StrMap α), (m.map Prod.fst).Nodup →
      ∀ (k : String) (v : α), (k, v) ∈ m → StrMap.get? m k = some v
  | [], _, k, v => by simp
  | (k', v') :: rest, hnd, k, v => by
    intro hmem
    simp only [List.map_cons, List.nodup_cons] at hnd
    rcases List.mem_cons.mp hmem with h1 | h2
    · injection h1 with hk1 hv1
      subst hk1
      subst hv1
      simp [StrMap.get?]
    · have hk : k' ≠ k := by
        intro he
        subst he
        exact hnd.1 (List.mem_map_of_mem Prod.fst h2)
      have heq : StrMap.get? ((k', v') :: rest) k = StrMap.get? rest k := by
        simp [StrMap.get?, List.find?_cons, hk]
      rw [heq]
      exact StrMap.get?_of_mem_nodup rest hnd.2 k v h2

theorem StrMap.set_cons_self {α : Type} (k : String) (v' v : α)
    (rest : StrMap α) :
    StrMap.set ((k, v') :: rest) k v = (k, v) :: rest := by
  simp [StrMap.set]

theorem StrMap.set_cons_ne {α : Type} (k' k : String) (v' v : α)
    (rest : StrMap α) (hk : k' ≠ k) :
    StrMap.set ((k', v') :: rest) k v = (k', v') :: StrMap.set rest k v := by
  have hks : (k' == k) = false := by simp [hk]
  simp [StrMap.set, hks]

theorem StrMap.keys_set_of_mem {α : Type} :
    ∀ (m : StrMap α) (k : String) (v : α), k ∈ m.map Prod.fst →
      (StrMap.set m k v).map Prod.fst = m.map Prod.fst
  | [], k, v => by simp
  | (k', v') :: rest, k, v => by
    intro hmem
    by_cases hk : k' = k
    · subst hk
      rw [StrMap.set_cons_self]
      simp
    · rw [StrMap.set_cons_ne _ _ _ _ _ hk]
      simp only [List.map_cons] at hmem ⊢
      rcases List.mem_cons.mp hmem with h1 | h2
      · exact absurd h1.symm hk
      · rw [StrMap.keys_set_of_mem rest k v h2]

theorem StrMap.mem_set_iff {α : Type} :
    ∀ (m : StrMap α), (m.map Prod.fst).Nodup →
      ∀ (k : String) (v : α) (pr : String × α), k ∈ m.map Prod.fst →
      (pr ∈ StrMap.set m k v ↔ pr = (k, v) ∨ (pr ∈ m ∧ pr.1 ≠ k))
  | [], _, k, v, pr => by simp
  | (k', v') :: rest, hnd, k, v, pr => by
    intro hmem
    simp only [List.map_cons, List.nodup_cons] at hnd
    by_cases hk : k' = k
    · subst hk
      rw [StrMap.set_cons_self]
      constructor
      · intro h
        rcases List.mem_cons.mp h with h1 | h2
        · exact Or.inl h1
        · refine Or.inr ⟨List.mem_cons_of_mem _ h2, ?_⟩
          intro he
          exact hnd.1 (he ▸ List.mem_map_of_mem Prod.fst h2)
      · intro h
        rcases h with h1 | ⟨hm2, hne⟩
        · exact h1 ▸ List.mem_cons_self _ _
        · rcases List.mem_cons.mp hm2 with h4 | h5
          · exact absurd (by rw [h4]) hne
          · exact List.mem_cons_of_mem _ h5
    · rw [StrMap.set_cons_ne _ _ _ _ _ hk]
      simp only [List.map_cons] at hmem
      rcases List.mem_cons.mp hmem with h1 | h2
      · exact absurd h1.symm hk
      · constructor
        · intro h
          rcases List.mem_cons.mp h with h3 | h4
          · refine Or.inr ⟨h3 ▸ List.mem_cons_self _ _, ?_⟩
            rw [h3]
            exact hk
          · rcases (StrMap.mem_set_iff rest hnd.2 k v pr h2).mp h4 with h5 | h6
            · exact Or.inl h5
            · exact Or.inr ⟨List.mem_cons_of_mem _ h6.1, h6.2⟩
        · intro h
          rcases h with h1 | ⟨hm2, hne⟩
          · exact List.mem_cons_of_mem _
              ((StrMap.mem_set_iff rest hnd.2 k v pr h2).mpr (Or.inl h1))
          · rcases List.mem_cons.mp hm2 with h4 | h5
            · exact h4 ▸ List.mem_cons_self _ _
            · exact List.mem_cons_of_mem _
                ((StrMap.mem_set_iff rest hnd.2 k v pr h2).mpr
                  (Or.inr ⟨h5, hne⟩))

theorem bestByPathStep_good (processed : List SearchResult)
    (acc : List (String × SearchResult)) (r : SearchResult)
    (h : GoodAcc processed acc) :
    GoodAcc (processed ++ [r]) (bestByPathStep acc r) := by
  obtain ⟨hnd, hpath, hmem, hmax, hcov⟩ := h
  rw [bestByPathStep]
  cases hget : StrMap.get? acc r.path with
  | none =>
    have hnotin : r.path ∉ acc.map Prod.fst :=
      (StrMap.get?_eq_none_iff acc r.path).mp hget
    refine ⟨?_, ?_, ?_, ?_, ?_⟩
    · rw [List.map_append, List.nodup_append]
      refine ⟨hnd, by simp, ?_⟩
      intro a ha hb
      simp only [List.map_cons, List.map_nil, List.mem_singleton] at hb
      subst hb
      exact hnotin ha
    · intro pr hpr
      rcases List.mem_append.mp hpr with h1 | h2
      · exact hpath pr h1
      · simp only [List.mem_singleton] at h2
        rw [h2]
    · intro pr hpr
      rcases List.mem_append.mp hpr with h1 | h2
      · exact List.mem_append_left _ (hmem pr h1)
      · simp only [List.mem_singleton] at h2
        rw [h2]
        exact List.mem_append_right _ (List.mem_singleton_self r)
    · intro pr hpr rr hrr hpe
      rcases List.mem_append.mp hpr with h1 | h2
      · rcases List.mem_append.mp hrr with h3 | h4
        · exact hmax pr h1 rr h3 hpe
        · simp only [List.mem_singleton] at h4
          subst h4
          exact absurd (hpe ▸ List.mem_map_of_mem Prod.fst h1) hnotin
      · simp only [List.mem_singleton] at h2
        subst h2
        rcases List.mem_append.mp hrr with h3 | h4
        · have hpe' : rr.path = r.path := hpe
          exact absurd (hpe' ▸ hcov rr h3) hnotin
        · simp only [List.mem_singleton] at h4
          subst h4
          exact le_refl _
    · intro rr hrr
      rw [List.map_append]
      rcases List.mem_append.mp hrr with h1 | h2
      · exact List.mem_append_left _ (hcov rr h1)
      · simp only [List.mem_singleton] at h2
        subst h2
        simp
  | some ex_ =>
    have hexmem : (r.path, ex_) ∈ acc := StrMap.get?_some_mem acc r.path ex_ hget
    have hkin : r.path ∈ acc.map Prod.fst :=
      List.mem_map_of_mem Prod.fst hexmem
    by_cases hlt : ex_.score < r.score
    · simp only [hlt, if_true]
      refine ⟨?_, ?_, ?_, ?_, ?_⟩
      · rw [StrMap.keys_set_of_mem acc r.path r hkin]
        exact hnd
      · intro pr hpr
        rcases (StrMap.mem_set_iff acc hnd r.path r pr hkin).mp hpr
          with h1 | ⟨h2, _⟩
        · rw [h1]
        · exact hpath pr h2
      · intro pr hpr
        rcases (StrMap.mem_set_iff acc hnd r.path r pr hkin).mp hpr
          with h1 | ⟨h2, _⟩
        · rw [h1]
          exact List.mem_append_right _ (List.mem_singleton_self r)
        · exact List.mem_append_left _ (hmem pr h2)
      · intro pr hpr rr hrr hpe
        rcases (StrMap.mem_set_iff acc hnd r.path r pr hkin).mp hpr
          with h1 | ⟨h2, hne⟩
        · subst h1
          rcases List.mem_append.mp hrr with h3 | h4
          · have := hmax (r.path, ex_) hexmem rr h3 hpe
            exact le_trans this (le_of_lt hlt)
          · simp only [List.mem_singleton] at h4
            subst h4
            exact le_refl _
        · rcases List.mem_append.mp hrr with h3 | h4
          · exact hmax pr h2 rr h3 hpe
          · simp only [List.mem_singleton] at h4
            subst h4
            exact absurd hpe (by simpa using hne.symm)
      · intro rr hrr
        rw [StrMap.keys_set_of_mem acc r.path r hkin]
        rcases List.mem_append.mp hrr with h1 | h2
        · exact hcov rr h1
        · simp only [List.mem_singleton] at h2
          subst h2
          exact hkin
    · simp only [hlt, if_false]
      refine ⟨hnd, hpath, ?_, ?_, ?_⟩
      · intro pr hpr
        exact List.mem_append_left _ (hmem pr hpr)
      · intro pr hpr rr hrr hpe
        rcases List.mem_append.mp hrr with h3 | h4
        · exact hmax pr hpr rr h3 hpe
        · simp only [List.mem_singleton] at h4
          subst h4
          have hprv : pr.2 = ex_ := by
            have hg := StrMap.get?_of_mem_nodup acc hnd pr.1 pr.2
              (by simpa using hpr)
            rw [← hpe] at hg
            rw [hget] at hg
            injection hg with hg'
            exact hg'.symm
          rw [hprv]
          exact not_lt.mp hlt
      · intro rr hrr
        rcases List.mem_append.mp hrr with h1 | h2
        · exact hcov rr h1
        · simp only [List.mem_singleton] at h2
          subst h2
          exact hkin

theorem mergeBest_fold_good :
    ∀ (l processed : List SearchResult) (acc : List (String × SearchResult)),
      GoodAcc processed acc →
      GoodAcc (processed ++ l) (l.foldl bestByPathStep acc)
  | [], processed, acc => by
    intro h
    simpa using h
  | r :: l', processed, acc => by
    intro h
    have hstep := bestByPathStep_good processed acc r h
    have := mergeBest_fold_good l' (processed ++ [r]) (bestByPathStep acc r)
      hstep
    rw [List.append_cons]
    simpa using this

theorem mergeBest_good (l : List SearchResult) :
    GoodAcc l (mergeBest l) := by
  have h0 : GoodAcc [] [] := by
    refine ⟨List.nodup_nil, ?_, ?_, ?_, ?_⟩ <;> simp
  have := mergeBest_fold_good l [] [] h0
  simpa [mergeBest] using this

theorem insertDesc_perm (r : SearchResult) :
    ∀ (l : List SearchResult), (insertDesc r l).Perm (r :: l)
  | [] => by simp [insertDesc]
  | x :: xs => by
    rw [insertDesc]
    by_cases hlt : x.score < r.score
    · simp [hlt]
    · simp only [hlt, if_false]
      have := insertDesc_perm r xs
      exact (this.cons x).trans (List.Perm.swap r x xs)

theorem sortByScoreDesc_perm (l : List SearchResult) :
    (sortByScoreDesc l).Perm l := by
  induction l with
  | nil => simp [sortByScoreDesc]
  | cons x xs ih =>
    have h1 : sortByScoreDesc (x :: xs) = insertDesc x (sortByScoreDesc xs) :=
      rfl
    rw [h1]
    exact (insertDesc_perm x (sortByScoreDesc xs)).trans (ih.cons x)

theorem insertDesc_sorted (r : SearchResult) :
    ∀ (l : List SearchResult),
      List.Pairwise (fun a b => b.score ≤ a.score) l →
      List.Pairwise (fun a b => b.score ≤ a.score) (insertDesc r l)
  | [] => by simp [insertDesc]
  | x :: xs => by
    intro h
    rw [insertDesc]
    by_cases hlt : x.score < r.score
    · simp only [hlt, if_true]
      refine List.Pairwise.cons ?_ h
      intro y hy
      rcases List.mem_cons.mp hy with h1 | h2
      · rw [h1]
        exact le_of_lt hlt
      · have := (List.pairwise_cons.mp h).1 y h2
        exact le_trans this (le_of_lt hlt)
    · simp only [hlt, if_false]
      have hx := List.pairwise_cons.mp h
      refine List.Pairwise.cons ?_ (insertDesc_sorted r xs hx.2)
      intro y hy
      have hmem := (insertDesc_perm r xs).mem_iff.mp hy
      rcases List.mem_cons.mp hmem with h1 | h2
      · rw [h1]
        exact not_lt.mp hlt
      · exact hx.1 y h2

theorem sortByScoreDesc_sorted (l : List SearchResult) :
    List.Pairwise (fun a b => b.score ≤ a.score) (sortByScoreDesc l) := by
  induction l with
  | nil => simp [sortByScoreDesc]
  | cons x xs ih => exact insertDesc_sorted x (sortByScoreDesc xs) ih

theorem filter_path_length_le_one :
    ∀ (l : List SearchResult),
      (l.map (fun r => r.path)).Nodup → ∀ (p : String),
      (l.filter (fun r => r.path == p)).length ≤ 1
  | [] => by simp
  | x :: xs => by
    intro h p
    simp only [List.map_cons, List.nodup_cons] at h
    rw [List.filter_cons]
    by_cases hx : (x.path == p) = true
    · rw [if_pos hx]
      have hxs : xs.filter (fun r => r.path == p) = [] := by
        rw [List.filter_eq_nil_iff]
        intro a ha hc
        have h1 : a.path = p := by simpa using hc
        have h2 : x.path = p := by simpa using hx
        exact h.1 ((h2.trans h1.symm) ▸ List.mem_map_of_mem (fun r => r.path) ha)
      rw [hxs]
      simp
    · rw [if_neg hx]
      exact le_trans (filter_path_length_le_one xs h.2 p) (le_refl 1)

theorem title_component (s : Settings) (q : List ℝ) (ex : Option String)
    (db : EmbeddingDatabases ℝ) (p : String)
    (hndT : (db.titles.map Prod.fst).Nodup) :
    ((if s.aiIndexTitles = true then titleResultsList q ex db.titles
      else []).filter (fun r => r.path == p)).map
      (fun r => (r.score, r.source))
    = (if s.aiIndexTitles && !(excludedPath ex p) then
        (match StrMap.get? db.titles p with
         | some data => [(cosVal q data.embedding, Source.title)]
         | none => [])
       else []) := by
  by_cases hs : s.aiIndexTitles = true
  · rw [if_pos hs, hs, Bool.true_and]
    exact filter_titleResultsList q ex db.titles hndT p
  · rw [if_neg hs]
    have hs' : s.aiIndexTitles = false := by simpa using hs
    rw [hs', Bool.false_and]
    simp

theorem heading_component (s : Settings) (q : List ℝ) (ex : Option String)
    (db : EmbeddingDatabases ℝ) (p : String)
    (hndH : (db.headings.map Prod.fst).Nodup) :
    ((if s.aiIndexHeadings = true then headingResultsList q ex db.headings
      else []).filter (fun r => r.path == p)).map
      (fun r => (r.score, r.source))
    = (if s.aiIndexHeadings && !(excludedPath ex p) then
        (match StrMap.get? db.headings p with
         | some data => [(cosVal q data.embedding, Source.heading)]
         | none => [])
       else []) := by
  by_cases hs : s.aiIndexHeadings = true
  · rw [if_pos hs, hs, Bool.true_and]
    exact filter_headingResultsList q ex db.headings hndH p
  · rw [if_neg hs]
    have hs' : s.aiIndexHeadings = false := by simpa using hs
    rw [hs', Bool.false_and]
    simp

theorem content_component (s : Settings) (q : List ℝ) (ex : Option String)
    (db : EmbeddingDatabases ℝ) (p : String)
    (hndC : (db.content.map Prod.fst).Nodup) :
    ((if s.aiIndexContent = true then contentResultsList q ex db.content
      else []).filter (fun r => r.path == p)).map
      (fun r => (r.score, r.source))
    = (if s.aiIndexContent && !(excludedPath ex p) then
        (match StrMap.get? db.content p with
         | some data => [(cosVal q data.embedding, Source.content)]
         | none => [])
       else []) := by
  by_cases hs : s.aiIndexContent = true
  · rw [if_pos hs, hs, Bool.true_and]
    exact filter_contentResultsList q ex db.content hndC p
  · rw [if_neg hs]
    have hs' : s.aiIndexContent = false := by simpa using hs
    rw [hs', Bool.false_and]
    simp

/-- C5: under well-formed stores (unique keys, embeddings matching the query
dimension), `searchByEmbedding` succeeds; the result list is sorted by
descending score, contains at most one entry per document path, and each
entry's score/source pair is one of the path's per-collection matches with
the maximal score among them. -/
theorem C5_merge_correctness (s : Settings) (db : EmbeddingDatabases ℝ)
    (q : List ℝ) (topK : Option Nat) (ex : Option String)
    (minScore : Option ℝ)
    (hT : ∀ e ∈ db.titles, (e.2).embedding.length = q.length)
    (hH : ∀ e ∈ db.headings, (e.2).embedding.length = q.length)
    (hC : ∀ e ∈ db.content, (e.2).embedding.length = q.length)
    (hndT : (db.titles.map Prod.fst).Nodup)
    (hndH : (db.headings.map Prod.fst).Nodup)
    (hndC : (db.content.map Prod.fst).Nodup) :
    ∃ res, searchByEmbedding s db q topK ex minScore = Except.ok res ∧
      List.Pairwise (fun a b => b.score ≤ a.score) res ∧
      (∀ p, (res.filter (fun r => r.path == p)).length ≤ 1) ∧
      (∀ r ∈ res, (r.score, r.source) ∈ candidateScores s db q ex r.path ∧
        ∀ c ∈ candidateScores s db q ex r.path, c.1 ≤ r.score) := by
  have hTok : (if s.aiIndexTitles = true then collectTitles q ex db.titles
      else Except.ok []) = Except.ok
        (if s.aiIndexTitles = true then titleResultsList q ex db.titles
         else []) := by
    by_cases hs : s.aiIndexTitles = true <;>
      simp [hs, collectTitles_ok q ex db.titles hT]
  have hHok : (if s.aiIndexHeadings = true then
        collectHeadings q ex db.headings
      else Except.ok []) = Except.ok
        (if s.aiIndexHeadings = true then headingResultsList q ex db.headings
         else []) := by
    by_cases hs : s.aiIndexHeadings = true <;>
      simp [hs, collectHeadings_ok q ex db.headings hH]
  have hCok : (if s.aiIndexContent = true then collectContent q ex db.content
      else Except.ok []) = Except.ok
        (if s.aiIndexContent = true then contentResultsList q ex db.content
         else []) := by
    by_cases hs : s.aiIndexContent = true <;>
      simp [hs, collectContent_ok q ex db.content hC]
  set tR := (if s.aiIndexTitles = true then titleResultsList q ex db.titles
    else []) with htR
  set hRl := (if s.aiIndexHeadings = true then
    headingResultsList q ex db.headings else []) with hhR
  set cR := (if s.aiIndexContent = true then contentResultsList q ex db.content
    else []) with hcR
  have hrun : searchByEmbedding s db q topK ex minScore = Except.ok
      ((if 0 < (minScore.getD 0) then
          (sortByScoreDesc ((mergeBest (tR ++ hRl ++ cR)).map (fun e => e.2))).filter
            (fun r => decide ((minScore.getD 0) ≤ r.score))
        else
          sortByScoreDesc ((mergeBest (tR ++ hRl ++ cR)).map (fun e => e.2))).take
        (topK.getD 5)) := by
    rw [searchByEmbedding, findSimilar]
    rw [hTok, hHok, hCok]
  have hGood := mergeBest_good (tR ++ hRl ++ cR)
  have hpathsEq : (((mergeBest (tR ++ hRl ++ cR)).map (fun e => e.2)).map
      (fun r => r.path)) = (mergeBest (tR ++ hRl ++ cR)).map Prod.fst := by
    rw [List.map_map]
    exact List.map_congr_left (fun pr hpr => hGood.2.1 pr hpr)
  have hndMerged : ((((mergeBest (tR ++ hRl ++ cR)).map (fun e => e.2)).map
      (fun r => r.path))).Nodup := by
    rw [hpathsEq]
    exact hGood.1
  have hsorted := sortByScoreDesc_sorted
    ((mergeBest (tR ++ hRl ++ cR)).map (fun e => e.2))
  have hperm := sortByScoreDesc_perm
    ((mergeBest (tR ++ hRl ++ cR)).map (fun e => e.2))
  have hsub : ((if 0 < (minScore.getD 0) then
      (sortByScoreDesc ((mergeBest (tR ++ hRl ++ cR)).map (fun e => e.2))).filter
        (fun r => decide ((minScore.getD 0) ≤ r.score))
    else
      sortByScoreDesc ((mergeBest (tR ++ hRl ++ cR)).map (fun e => e.2))).take
    (topK.getD 5)).Sublist
      (sortByScoreDesc ((mergeBest (tR ++ hRl ++ cR)).map (fun e => e.2))) := by
    by_cases hm : 0 < (minScore.getD 0)
    · rw [if_pos hm]
      exact (List.take_sublist _ _).trans (List.filter_sublist _)
    · rw [if_neg hm]
      exact List.take_sublist _ _
  have hcand : ∀ p, (((tR ++ hRl ++ cR).filter (fun r => r.path == p)).map
      (fun r => (r.score, r.source))) = candidateScores s db q ex p := by
    intro p
    rw [List.filter_append, List.filter_append, List.map_append,
      List.map_append]
    rw [title_component s q ex db p hndT, heading_component s q ex db p hndH,
      content_component s q ex db p hndC]
    rfl
  refine ⟨_, hrun, ?_, ?_, ?_⟩
  · exact List.Pairwise.sublist hsub hsorted
  · intro p
    have hnds : (((sortByScoreDesc ((mergeBest (tR ++ hRl ++ cR)).map
        (fun e => e.2))).map (fun r => r.path))).Nodup :=
      ((hperm.map _).nodup_iff).mpr hndMerged
    have hndF := List.Nodup.sublist (hsub.map (fun r => r.path)) hnds
    exact filter_path_length_le_one _ hndF p
  · intro r hr
    have hrs : r ∈ sortByScoreDesc
        ((mergeBest (tR ++ hRl ++ cR)).map (fun e => e.2)) := hsub.subset hr
    have hrm : r ∈ (mergeBest (tR ++ hRl ++ cR)).map (fun e => e.2) :=
      hperm.mem_iff.mp hrs
    obtain ⟨pr, hprmem, hpr2⟩ := List.mem_map.mp hrm
    have hrpath : r.path = pr.1 := by
      rw [← hpr2]
      exact hGood.2.1 pr hprmem
    have hrAll : r ∈ tR ++ hRl ++ cR := by
      rw [← hpr2]
      exact hGood.2.2.1 pr hprmem
    have hrmax : ∀ x ∈ tR ++ hRl ++ cR, x.path = pr.1 → x.score ≤ r.score := by
      intro x hx hxe
      rw [← hpr2]
      exact hGood.2.2.2.1 pr hprmem x hx hxe
    constructor
    · rw [← hcand r.path]
      apply List.mem_map_of_mem
      rw [List.mem_filter]
      exact ⟨hrAll, by simp⟩
    · intro c hc
      rw [← hcand r.path] at hc
      obtain ⟨x, hx, hxc⟩ := List.mem_map.mp hc
      have hxf := List.mem_filter.mp hx
      have hxp : x.path = r.path := by simpa using hxf.2
      have hle := hrmax x hxf.1 (by rw [hxp, hrpath])
      rw [← hxc]
      exact hle

/-- Witness for `C5_merge_correctness`: `p.md` indexed in two enabled
collections with different embeddings. -/
theorem C5_merge_correctness_witness :
    (∀ e ∈ dbSearchWit.titles,
      (e.2).embedding.length = ([1, 0] : List ℝ).length) ∧
    ∃ res, searchByEmbedding sAllOn dbSearchWit [1, 0] none none none
        = Except.ok res ∧
      List.Pairwise (fun a b => b.score ≤ a.score) res ∧
      (∀ p, (res.filter (fun r => r.path == p)).length ≤ 1) ∧
      (∀ r ∈ res, (r.score, r.source) ∈
          candidateScores sAllOn dbSearchWit [1, 0] none r.path ∧
        ∀ c ∈ candidateScores sAllOn dbSearchWit [1, 0] none r.path,
          c.1 ≤ r.score) :=
  ⟨by
    intro e he
    simp only [dbSearchWit] at he
    rw [List.mem_singleton.mp he],
   C5_merge_correctness sAllOn dbSearchWit [1, 0] none none none
     (by
       intro e he
       simp only [dbSearchWit] at he
       rw [List.mem_singleton.mp he])
     (by
       intro e he
       simp only [dbSearchWit] at he
       simp at he)
     (by
       intro e he
       simp only [dbSearchWit] at he
       rw [List.mem_singleton.mp he]
       rfl)
     (by simp [dbSearchWit]) (by simp [dbSearchWit])
     (by simp [dbSearchWit])⟩
